import Mathlib

/-!
Verification development for the METAR CSV translator
(`scripts/metar_translation/metar_translator.py`).

The Python source is shallowly embedded: each Python helper becomes a Lean
function over `List Char` / `String` / association lists.  Python `None` is
`Option.none`, Python exceptions of a cast are `Option.none` results, regular
expressions are translated into explicit backtracking matchers that follow the
pattern text of the source, and Python dicts become insertion-ordered
association lists.  The numeric cast (`float` in the source) and the external
timestamp parser (`pandas.to_datetime`) are kept as parameters, since their
behaviour is library code outside this repository; every theorem below either
does not depend on them or states its dependence as an explicit hypothesis.
-/

namespace Metar

/-! ## Python string primitives -/

/-- Characters removed by Python's `str.strip()` with no argument
(ASCII whitespace; the rare further Unicode whitespace characters do not occur
in this data and are not modelled). -/
def pyWS (c : Char) : Bool :=
  c = ' ' || c = '\t' || c = '\n' || c = '\r' || c = '\x0b' || c = '\x0c'

/-- Python `str.strip()` on a character list: drop whitespace from both ends. -/
def pyStripList (l : List Char) : List Char :=
  ((l.dropWhile pyWS).reverse.dropWhile pyWS).reverse

/-- Python `str.strip()`. -/
def pyStrip (s : String) : String :=
  String.mk (pyStripList s.data)

/-! ## JSON-ish values stored in a record -/

/-- The values a record field can hold (the Python code stores strings, `None`,
floats, ints, bools, datetimes, lists and dicts in its output dict). -/
inductive JVal where
  | null
  | str (s : String)
  | num (q : Rat)
  | int (n : Int)
  | bool (b : Bool)
  | dt (t : Nat)
  | list (xs : List JVal)
  | obj (fields : List (String × JVal))

/-- Lift a nullable raw string to a stored value. -/
def jopt : Option String → JVal
  | none => JVal.null
  | some s => JVal.str s

/-! ## Field normalizer (source lines 31-60) -/

/-- Source `is_missing` (lines 31-32): `None`, or the stripped string is one of
the sentinel tokens. -/
def is_missing : Option String → Bool
  | none => true
  | some s => (["", "M", "NA", "None"] : List String).contains (pyStrip s)

/-- Source `is_trace_token` (lines 35-36): a string whose stripped form is
exactly `T` (a non-string, i.e. `None`, is never a trace token). -/
def is_trace_token : Option String → Bool
  | none => false
  | some s => pyStrip s = "T"

/-- A numeric target type, as the `cast` parameter of `parse_numeric_field`.
`onInt0` models `cast(0)` (`none` = the cast raised), `onStr` models
`cast(r)` on a string (`none` = the cast raised).  The source always passes
Python's `float` here; that builtin is library code, so it stays abstract. -/
structure PyCast where
  onInt0 : Option JVal
  onStr : String → Option JVal

/-- Source `parse_numeric_field` (lines 39-60).  Returns the pair
`(value, is_trace)`; a `none` value is Python's `None`. -/
def parse_numeric_field (raw : Option String) (cast : PyCast) : Option JVal × Bool :=
  if is_missing raw then (none, false)
  else
    match raw with
    | none => (none, false)  -- unreachable: `is_missing none = true`
    | some s =>
      let r := pyStrip s
      if is_trace_token (some r) then
        -- `try: return cast(0), True  except: return 0, True`
        (some (cast.onInt0.getD (JVal.int 0)), true)
      else
        -- `try: return cast(r), False  except: return None, False`
        match cast.onStr r with
        | some v => (some v, false)
        | none => (none, false)

/-- The spec's `normalize` contract: the `NormalizedField` triple
`(raw, value, is_trace)`.  The raw component is carried through unchanged
(in the source, `row_to_record` stores `row.get(col)` itself as the raw field
next to the two components returned by `parse_numeric_field`). -/
def normalizeField (raw : Option String) (cast : PyCast) :
    Option String × Option JVal × Bool :=
  (raw, (parse_numeric_field raw cast).1, (parse_numeric_field raw cast).2)

/-! ## Text extractor: the regular-expression battery (source lines 67-106)

Each module-level compiled pattern of the source becomes an explicit matcher.
A matcher at a position either fails or returns what the Python match object
yields there; `reSearch` tries every position left to right, exactly like
`re.search`.  Alternations are tried in the order they appear in the pattern
text, and greedy counted repetitions try the longer count first, as Python's
backtracking engine does.  `\d` and `\w` are modelled over the ASCII range
occurring in this data. -/

/-- First alternative wins: Python's regex alternation / optional group. -/
def reOr {α : Type} : Option α → Option α → Option α
  | some a, _ => some a
  | none, b => b

/-- Take exactly `n` leading decimal digits (`\d` repeated `n` times),
returning them and the rest. -/
def takeDigits : Nat → List Char → Option (List Char × List Char)
  | 0, l => some ([], l)
  | _ + 1, [] => none
  | n + 1, c :: rest =>
      if c.isDigit then (takeDigits n rest).map (fun p => (c :: p.1, p.2))
      else none

/-- Digits of a matched group to the `int(...)` the source applies. -/
def natOfDigits (ds : List Char) : Nat :=
  ds.foldl (fun n c => n * 10 + (c.toNat - 48)) 0

/-- A word character for `\b` and `\w` (ASCII model). -/
def isWordChar (c : Char) : Bool :=
  c.isAlphanum || c = '_'

/-- A word boundary right after a word character: end of text or a non-word
character next. -/
def atWordBoundary : List Char → Bool
  | [] => true
  | c :: _ => !(isWordChar c)

/-- Literal `KT` terminator of the wind pattern. -/
def windKT : List Char → Option Unit
  | 'K' :: 'T' :: _ => some ()
  | _ => none

/-- Wind pattern after direction and speed: the optional `(G(?P<gst>\d{2,3}))?`
group (present before absent; three gust digits before two), then `KT`. -/
def windAfterSpd (spd : List Char) (l : List Char) : Option (Nat × Option Nat) :=
  reOr
    (match l with
     | 'G' :: r1 =>
        reOr
          ((takeDigits 3 r1).bind fun p =>
            (windKT p.2).map fun _ => (natOfDigits spd, some (natOfDigits p.1)))
          ((takeDigits 2 r1).bind fun p =>
            (windKT p.2).map fun _ => (natOfDigits spd, some (natOfDigits p.1)))
     | _ => none)
    ((windKT l).map fun _ => (natOfDigits spd, none))

/-- Wind pattern after the direction group: greedy `(?P<spd>\d{2,3})`. -/
def windAfterDir (dir : List Char) (l : List Char) :
    Option (String × Nat × Option Nat) :=
  (reOr
    ((takeDigits 3 l).bind fun p => windAfterSpd p.1 p.2)
    ((takeDigits 2 l).bind fun p => windAfterSpd p.1 p.2)).map
    fun q => (String.mk dir, q.1, q.2)

/-- Source `wind_re` (line 67):
`(?P<dir>\d{3}|VRB)(?P<spd>\d{2,3})(G(?P<gst>\d{2,3}))?KT`, anchored at one
position.  Yields (direction token, speed, gust-or-none). -/
def windMatchAt (l : List Char) : Option (String × Nat × Option Nat) :=
  reOr
    ((takeDigits 3 l).bind fun p => windAfterDir p.1 p.2)
    (match l with
     | 'V' :: 'R' :: 'B' :: rest => windAfterDir ['V', 'R', 'B'] rest
     | _ => none)

/-- Visibility branch one after its leading digits: the optional `(?: ?/?\d)?`
part (its four present shapes in backtracking order, then absent), each
followed by the literal `SM`.  Returns the whole matched token. -/
def visAfterDigits (ds : List Char) (l : List Char) : Option (List Char) :=
  let trySM : List Char → List Char → Option (List Char) := fun consumed rest =>
    match rest with
    | 'S' :: 'M' :: _ => some (ds ++ consumed ++ ['S', 'M'])
    | _ => none
  reOr
    (match l with
     | ' ' :: '/' :: d :: rest =>
        if d.isDigit then trySM [' ', '/', d] rest else none
     | _ => none)
    (reOr
      (match l with
       | ' ' :: d :: rest => if d.isDigit then trySM [' ', d] rest else none
       | _ => none)
      (reOr
        (match l with
         | '/' :: d :: rest => if d.isDigit then trySM ['/', d] rest else none
         | _ => none)
        (reOr
          (match l with
           | d :: rest => if d.isDigit then trySM [d] rest else none
           | _ => none)
          (trySM [] l))))

/-- Source `vis_re` (line 68): `(?P<vis>\d{1,2}(?: ?/?\d)?SM|M?1/4|M1/2)`,
anchored at one position; returns the matched string. -/
def visMatchAt (l : List Char) : Option String :=
  (reOr
    (reOr
      ((takeDigits 2 l).bind fun p => visAfterDigits p.1 p.2)
      ((takeDigits 1 l).bind fun p => visAfterDigits p.1 p.2))
    (reOr
      (match l with
       | 'M' :: '1' :: '/' :: '4' :: _ => some ['M', '1', '/', '4']
       | _ => none)
      (reOr
        (match l with
         | '1' :: '/' :: '4' :: _ => some ['1', '/', '4']
         | _ => none)
        (match l with
         | 'M' :: '1' :: '/' :: '2' :: _ => some ['M', '1', '/', '2']
         | _ => none)))).map String.mk

/-- Source `altimeter_re` (line 69): `A(?P<alt>\d{4})`, anchored at one
position; returns the four captured digits. -/
def altMatchAt (l : List Char) : Option String :=
  match l with
  | 'A' :: d1 :: d2 :: d3 :: d4 :: _ =>
      if d1.isDigit && d2.isDigit && d3.isDigit && d4.isDigit then
        some (String.mk [d1, d2, d3, d4])
      else none
  | _ => none

/-- Sky-cover alternation `FEW|SCT|BKN|OVC|VV` of `cloud_re`. -/
def cloudCover : List Char → Option (List Char × List Char)
  | 'F' :: 'E' :: 'W' :: rest => some (['F', 'E', 'W'], rest)
  | 'S' :: 'C' :: 'T' :: rest => some (['S', 'C', 'T'], rest)
  | 'B' :: 'K' :: 'N' :: rest => some (['B', 'K', 'N'], rest)
  | 'O' :: 'V' :: 'C' :: rest => some (['O', 'V', 'C'], rest)
  | 'V' :: 'V' :: rest => some (['V', 'V'], rest)
  | _ => none

/-- Source `cloud_re` (line 70):
`\b(FEW|SCT|BKN|OVC|VV)(\d{3}|\d{3}CB|\d{3}TCU)?\b`, anchored at one position.
`prev` is the character before the position (for the leading `\b`).  Returns
the joined groups (what `"".join` produces in the source) and the rest. -/
def cloudMatchAt (prev : Option Char) (l : List Char) : Option (String × List Char) :=
  if (match prev with | none => true | some c => !(isWordChar c)) then
    (cloudCover l).bind fun p =>
      reOr
        ((takeDigits 3 p.2).bind fun q =>
          if atWordBoundary q.2 then some (String.mk (p.1 ++ q.1), q.2) else none)
        (reOr
          ((takeDigits 3 p.2).bind fun q =>
            match q.2 with
            | 'C' :: 'B' :: rest =>
                if atWordBoundary rest then
                  some (String.mk (p.1 ++ q.1 ++ ['C', 'B']), rest)
                else none
            | _ => none)
          (reOr
            ((takeDigits 3 p.2).bind fun q =>
              match q.2 with
              | 'T' :: 'C' :: 'U' :: rest =>
                  if atWordBoundary rest then
                    some (String.mk (p.1 ++ q.1 ++ ['T', 'C', 'U']), rest)
                  else none
              | _ => none)
            (if atWordBoundary p.2 then some (String.mk p.1, p.2) else none)))
  else none

/-- Non-overlapping left-to-right collection of `cloud_re` matches
(`re.findall`), carrying the previous character for the leading `\b`.  The
fuel starts at the list length; every step consumes at least one character, so
it never runs out. -/
def cloudScanAux : Nat → Option Char → List Char → List String
  | 0, _, _ => []
  | _ + 1, _, [] => []
  | fuel + 1, prev, c :: rest =>
      match cloudMatchAt prev (c :: rest) with
      | some (s, rem) => s :: cloudScanAux fuel s.data.getLast? rem
      | none => cloudScanAux fuel (some c) rest

/-- `cloud_re.findall` over a whole text. -/
def cloudScan (l : List Char) : List String :=
  cloudScanAux l.length none l

/-- The phenomenon vocabulary of `wxcode_re` (lines 71-73) as strings, in
pattern order. -/
def wxVocab : List String :=
  ["DZ", "RA", "SN", "SG", "IC", "PL", "GR", "GS", "BR", "FG", "TS", "SH",
   "VA", "HZ", "BL", "DR", "SQ", "FS", "SS", "DS"]

/-- The two-letter phenomenon alternation of `wxcode_re` (lines 71-73), in
pattern order: `DZ|RA|SN|SG|IC|PL|GR|GS|BR|FG|TS|SH|VA|HZ|BL|DR|SQ|FS|SS|DS`. -/
def wxPairOk (a b : Char) : Bool :=
  (a = 'D' && b = 'Z') || (a = 'R' && b = 'A') || (a = 'S' && b = 'N') ||
  (a = 'S' && b = 'G') || (a = 'I' && b = 'C') || (a = 'P' && b = 'L') ||
  (a = 'G' && b = 'R') || (a = 'G' && b = 'S') || (a = 'B' && b = 'R') ||
  (a = 'F' && b = 'G') || (a = 'T' && b = 'S') || (a = 'S' && b = 'H') ||
  (a = 'V' && b = 'A') || (a = 'H' && b = 'Z') || (a = 'B' && b = 'L') ||
  (a = 'D' && b = 'R') || (a = 'S' && b = 'Q') || (a = 'F' && b = 'S') ||
  (a = 'S' && b = 'S') || (a = 'D' && b = 'S')

/-- The phenomenon-code part of `wxcode_re`: two vocabulary letters followed
by a word boundary.  Returns the captured code and the rest. -/
def codeMatchAt : List Char → Option (String × List Char)
  | a :: b :: rest =>
      if wxPairOk a b && atWordBoundary rest then some (String.mk [a, b], rest)
      else none
  | _ => none

/-- Source `wxcode_re` (lines 71-73): a literal space, then the optional
intensity `(-|\+)?` (present before absent), then a phenomenon code and `\b`,
anchored at one position.  Returns the second capture group (the code). -/
def wxMatchAt : List Char → Option (String × List Char)
  | ' ' :: r1 =>
      reOr
        (match r1 with
         | c :: r2 => if c = '-' || c = '+' then codeMatchAt r2 else none
         | [] => none)
        (codeMatchAt r1)
  | _ => none

/-- Non-overlapping `wxcode_re.findall`, keeping the code capture of each
match (`w[1]` in the source).  Fuel as in `cloudScanAux`. -/
def wxFindallAux : Nat → List Char → List String
  | 0, _ => []
  | _ + 1, [] => []
  | fuel + 1, c :: rest =>
      match wxMatchAt (c :: rest) with
      | some (code, rem) => code :: wxFindallAux fuel rem
      | none => wxFindallAux fuel rest

/-- `wxcode_re.findall` over a whole text. -/
def wxFindall (l : List Char) : List String :=
  wxFindallAux l.length l

/-- `re.search`: try a matcher at every position, leftmost success wins. -/
def reSearch {α : Type} (m : List Char → Option α) : List Char → Option α
  | [] => m []
  | c :: rest =>
      match m (c :: rest) with
      | some r => some r
      | none => reSearch m rest

/-- The wind entries of `parse_metar_text` (lines 84-88): three keys when the
wind pattern matched somewhere, nothing otherwise. -/
def windPartOf (s : List Char) : List (String × JVal) :=
  match reSearch windMatchAt s with
  | some (d, spd, gst) =>
      [("wind_dir", JVal.str d), ("wind_spd_kt", JVal.int (spd : Int)),
       ("wind_gust_kt",
         match gst with
         | some g => JVal.int (g : Int)
         | none => JVal.null)]
  | none => []

/-- The visibility entry of `parse_metar_text` (lines 90-92). -/
def visPartOf (s : List Char) : List (String × JVal) :=
  match reSearch visMatchAt s with
  | some v => [("visibility_raw", JVal.str v)]
  | none => []

/-- The altimeter entry of `parse_metar_text` (lines 94-96). -/
def altPartOf (s : List Char) : List (String × JVal) :=
  match reSearch altMatchAt s with
  | some a => [("altimeter_A", JVal.str a)]
  | none => []

/-- The cloud entry of `parse_metar_text` (lines 98-100). -/
def cloudsPartOf (s : List Char) : List (String × JVal) :=
  match cloudScan s with
  | [] => []
  | cs => [("clouds", JVal.list (cs.map JVal.str))]

/-- The weather-code entry of `parse_metar_text` (lines 102-104); the findall
runs on the text plus one trailing space, exactly as
`wxcode_re.findall(s + " ")` does. -/
def wxPartOf (s : List Char) : List (String × JVal) :=
  match wxFindall (s ++ [' ']) with
  | [] => []
  | ws => [("wx_codes", JVal.list (ws.map JVal.str))]

/-- Source `parse_metar_text` (lines 76-106).  The output dict is an
insertion-ordered association list whose keys are disjoint across the five
categories; each category contributes its entries iff its pattern matched, in
source order (wind, visibility, altimeter, clouds, weather codes). -/
def parse_metar_text (metar : Option String) : List (String × JVal) :=
  match metar with
  | none => []
  | some t =>
    if t = "" then []
    else if is_missing (some t) then []
    else
      windPartOf (pyStripList t.data) ++ visPartOf (pyStripList t.data) ++
        altPartOf (pyStripList t.data) ++ cloudsPartOf (pyStripList t.data) ++
        wxPartOf (pyStripList t.data)

/-! ## Record assembler (source lines 113-176) -/

/-- A CSV row as handed over by `csv.DictReader`: column name to nullable raw
string.  `row.get(k)` is `rget`, `k in row` is `rmem`. -/
abbrev Row := List (String × Option String)

/-- The output record: a Python dict modelled as an insertion-ordered
association list with unique keys maintained by `dset`. -/
abbrev Rec := List (String × JVal)

/-- Python `row.get(k)`: `None` when the key is absent or its stored value is
`None`. -/
def rget (row : Row) (k : String) : Option String :=
  (row.lookup k).getD none

/-- Python `k in row`. -/
def rmem (row : Row) (k : String) : Bool :=
  (row.lookup k).isSome

/-- Python dict assignment `d[k] = v`: replace in place when the key exists,
append otherwise. -/
def dset (d : Rec) (k : String) (v : JVal) : Rec :=
  if (d.lookup k).isSome then
    d.map (fun p => if p.1 = k then (k, v) else p)
  else d ++ [(k, v)]

/-- Source `numeric_specs` (lines 129-141): the fixed
(column, output name, cast) table.  Every entry's cast is Python's `float`,
kept as the abstract parameter `fcast`. -/
def numeric_specs (fcast : PyCast) : List (String × String × PyCast) :=
  [("tmpf", "tmpf_F", fcast),
   ("dwpf", "dwpf_F", fcast),
   ("relh", "relh_pct", fcast),
   ("drct", "wind_dir_deg", fcast),
   ("sknt", "wind_spd_kt", fcast),
   ("p01i", "precip_1hr_in", fcast),
   ("alti", "altim_inHg", fcast),
   ("mslp", "mslp_hPa", fcast),
   ("vsby", "visibility_sm", fcast),
   ("gust", "gust_kt", fcast),
   ("snowdepth", "snowdepth_in", fcast)]

/-- The numeric-field loop of `row_to_record` (lines 143-148): for each spec
whose column is present in the row, store raw value, parsed value and trace
flag under the three derived keys. -/
def addNumeric (row : Row) : List (String × String × PyCast) → Rec → Rec
  | [], acc => acc
  | (col, outname, cast) :: rest, acc =>
      addNumeric row rest
        (if rmem row col then
           let p := parse_numeric_field (rget row col) cast
           dset (dset (dset acc (outname ++ "_raw") (jopt (rget row col)))
                      (outname ++ "_v")
                      (match p.1 with | some v => v | none => JVal.null))
                (outname ++ "_is_trace") (JVal.bool p.2)
         else acc)

/-- One sky-condition slot (lines 151-156): slot `i` contributes a cloud group
iff at least one of its two columns is non-missing. -/
def cloudSlot (row : Row) (i : String) : Option JVal :=
  let ctype := rget row ("skyc" ++ i)
  let cheight := rget row ("skyl" ++ i)
  if !(is_missing ctype) || !(is_missing cheight) then
    some (JVal.obj [("type_raw", jopt ctype), ("height_raw", jopt cheight)])
  else none

/-- The cloud groups of a row, slots 1 to 4 in order (`for i in range(1, 5)`). -/
def cloud_groups_of (row : Row) : List JVal :=
  (["1", "2", "3", "4"] : List String).filterMap (cloudSlot row)

/-- Source `re.findall(r"[+-]?\w+", wxc)` tokenization (line 164): the
greedy maximal run of word characters. -/
def takeWordChars : List Char → List Char × List Char
  | [] => ([], [])
  | c :: rest =>
      if isWordChar c then
        let p := takeWordChars rest
        (c :: p.1, p.2)
      else ([], c :: rest)

/-- `[+-]?\w+` anchored at one position: sign present (needs a following word
character) before sign absent. -/
def signTokenAt (l : List Char) : Option (String × List Char) :=
  reOr
    (match l with
     | c :: rest =>
        if c = '+' || c = '-' then
          match takeWordChars rest with
          | ([], _) => none
          | (w, rem) => some (String.mk (c :: w), rem)
        else none
     | [] => none)
    (match takeWordChars l with
     | ([], _) => none
     | (w, rem) => some (String.mk w, rem))

/-- `re.findall(r"[+-]?\w+", _)` over a character list (fuel as before). -/
def wxcTokensAux : Nat → List Char → List String
  | 0, _ => []
  | _ + 1, [] => []
  | fuel + 1, c :: rest =>
      match signTokenAt (c :: rest) with
      | some (t, rem) => t :: wxcTokensAux fuel rem
      | none => wxcTokensAux fuel rest

/-- The `wxcodes_tokens` field value of a non-missing weather-code string. -/
def wxcTokens (s : String) : List String :=
  wxcTokensAux s.data.length s.data

/-- Timestamp handling of `row_to_record` (lines 121-126):
`pd.to_datetime(raw_valid) if raw_valid and raw_valid.strip() != "M" else
None`, with any parse exception (`toDT _ = none`) degrading to `None`. -/
def validValue (toDT : String → Option Nat) (rv : Option String) : JVal :=
  match rv with
  | none => JVal.null
  | some s =>
      if s = "" then JVal.null
      else if pyStrip s = "M" then JVal.null
      else
        match toDT s with
        | some d => JVal.dt d
        | none => JVal.null

/-- The record after station, timestamp fields (lines 116-126). -/
def recTimestamp (toDT : String → Option Nat) (row : Row) : Rec :=
  dset (dset (dset [] "station" (jopt (rget row "station")))
             "valid_raw" (jopt (rget row "valid")))
       "valid" (validValue toDT (rget row "valid"))

/-- The record after the numeric loop (lines 128-148). -/
def recNumeric (toDT : String → Option Nat) (fcast : PyCast) (row : Row) : Rec :=
  addNumeric row (numeric_specs fcast) (recTimestamp toDT row)

/-- The record after the cloud-group step (lines 150-158): the
`cloud_groups_raw` key appears only when some slot produced a group. -/
def recClouds (toDT : String → Option Nat) (fcast : PyCast) (row : Row) : Rec :=
  match cloud_groups_of row with
  | [] => recNumeric toDT fcast row
  | gs => dset (recNumeric toDT fcast row) "cloud_groups_raw" (JVal.list gs)

/-- The record after the weather-code step (lines 160-164): `wxcodes_raw`
always, `wxcodes_tokens` only for a truthy (`wxc and ...`), non-missing
string. -/
def recWxcodes (toDT : String → Option Nat) (fcast : PyCast) (row : Row) : Rec :=
  match rget row "wxcodes" with
  | none => dset (recClouds toDT fcast row) "wxcodes_raw" JVal.null
  | some s =>
      if s = "" then dset (recClouds toDT fcast row) "wxcodes_raw" (JVal.str s)
      else if is_missing (some s) then
        dset (recClouds toDT fcast row) "wxcodes_raw" (JVal.str s)
      else
        dset (dset (recClouds toDT fcast row) "wxcodes_raw" (JVal.str s))
             "wxcodes_tokens" (JVal.list ((wxcTokens s).map JVal.str))

/-- The record after the METAR step (lines 166-169): the raw text and the
parsed subset, the latter stored even when empty. -/
def recMetar (toDT : String → Option Nat) (fcast : PyCast) (row : Row) : Rec :=
  dset (dset (recWxcodes toDT fcast row) "metar_raw" (jopt (rget row "metar")))
       "metar_parsed" (JVal.obj (parse_metar_text (rget row "metar")))

/-- The remaining-columns pass (lines 171-174): for each field name, in order,
whose name is not yet a key of the record, store its raw value under the name
plus `_raw`. -/
def addRemaining (row : Row) : List String → Rec → Rec
  | [], acc => acc
  | k :: ks, acc =>
      addRemaining row ks
        (if (acc.lookup k).isSome then acc
         else dset acc (k ++ "_raw") (jopt (rget row k)))

/-- Source `row_to_record` (lines 113-176). -/
def row_to_record (toDT : String → Option Nat) (fcast : PyCast) (row : Row)
    (csv_fieldnames : List String) : Rec :=
  addRemaining row csv_fieldnames (recMetar toDT fcast row)

/-- A concrete numeric cast for witnesses: casting the integer zero gives the
float zero, and no string casts successfully. -/
def demoCast : PyCast :=
  { onInt0 := some (JVal.num 0), onStr := fun _ => none }

/-- The source columns of `numeric_specs`, for enumeration in proofs. -/
def numericCols : List String :=
  ["tmpf", "dwpf", "relh", "drct", "sknt", "p01i", "alti", "mslp", "vsby",
   "gust", "snowdepth"]

/-- The output names of `numeric_specs`, for enumeration in proofs. -/
def numericOuts : List String :=
  ["tmpf_F", "dwpf_F", "relh_pct", "wind_dir_deg", "wind_spd_kt",
   "precip_1hr_in", "altim_inHg", "mslp_hPa", "visibility_sm", "gust_kt",
   "snowdepth_in"]

/-- The (column, output name) pairs of `numeric_specs`, for decidable facts
about the table that do not involve the cast. -/
def colOutPairs : List (String × String) :=
  [("tmpf", "tmpf_F"), ("dwpf", "dwpf_F"), ("relh", "relh_pct"),
   ("drct", "wind_dir_deg"), ("sknt", "wind_spd_kt"), ("p01i", "precip_1hr_in"),
   ("alti", "altim_inHg"), ("mslp", "mslp_hPa"), ("vsby", "visibility_sm"),
   ("gust", "gust_kt"), ("snowdepth", "snowdepth_in")]

/-! ### Specification-side definitions

These follow the words of the spec, not the source; they exist only to state
what a claim predicts so it can be compared with what the code does. -/

/-- Whitespace-delimited tokens of a text (the spec speaks of a "token" of a
report; a collecting scan over maximal non-whitespace runs). -/
def wsTokensAux : List Char → List Char → List (List Char)
  | acc, [] => if acc.isEmpty then [] else [acc.reverse]
  | acc, c :: rest =>
      if pyWS c then
        if acc.isEmpty then wsTokensAux [] rest
        else acc.reverse :: wsTokensAux [] rest
      else wsTokensAux (c :: acc) rest

/-- Whitespace-delimited tokens of a string. -/
def wsTokens (s : String) : List String :=
  (wsTokensAux [] s.data).map String.mk

/-- The spec's altimeter token shape: the literal `A` followed by exactly four
digits and nothing else. -/
def isA4token (w : String) : Bool :=
  match w.data with
  | 'A' :: ds => ds.length == 4 && ds.all Char.isDigit
  | _ => false

/-- Some position of the text has an `A` immediately followed by four digits
(the substring shape the source's altimeter pattern actually requires). -/
def hasA4 (l : List Char) : Prop :=
  ∃ u d1 d2 d3 d4 v, l = u ++ 'A' :: d1 :: d2 :: d3 :: d4 :: v ∧
    d1.isDigit = true ∧ d2.isDigit = true ∧ d3.isDigit = true ∧ d4.isDigit = true

/-! ## Stripping lemmas -/

theorem dropWhile_dropWhile (p : Char → Bool) (l : List Char) :
    (l.dropWhile p).dropWhile p = l.dropWhile p := by
  induction l with
  | nil => rfl
  | cons c rest ih =>
      by_cases h : p c
      · simp [List.dropWhile_cons, h, ih]
      · simp [List.dropWhile_cons, h]

theorem dropWhile_of_head_false {p : Char → Bool} {c : Char} {r : List Char}
    (h : p c = false) : (c :: r).dropWhile p = c :: r := by
  simp [List.dropWhile_cons, h]

theorem length_dropWhile_le (p : Char → Bool) (l : List Char) :
    (l.dropWhile p).length ≤ l.length := by
  induction l with
  | nil => simp
  | cons c rest ih =>
      by_cases h : p c
      · simp only [List.dropWhile_cons, h, if_true, List.length_cons]
        exact Nat.le_succ_of_le ih
      · simp [List.dropWhile_cons, h]

theorem dropWhile_back_of_front {l : List Char} (hl : l.dropWhile pyWS = l) :
    ((l.reverse.dropWhile pyWS).reverse).dropWhile pyWS
      = (l.reverse.dropWhile pyWS).reverse := by
  cases hB : (l.reverse.dropWhile pyWS).reverse with
  | nil => rfl
  | cons c r =>
      have hdec : l = (c :: r) ++ (l.reverse.takeWhile pyWS).reverse := by
        conv_lhs =>
          rw [← List.reverse_reverse l,
              ← List.takeWhile_append_dropWhile pyWS l.reverse]
        rw [List.reverse_append, hB]
      have hc : pyWS c = false := by
        by_contra hcc
        have hcc' : pyWS c = true := by
          cases hv : pyWS c
          · exact absurd hv hcc
          · rfl
        have h1 := hl
        rw [hdec] at h1
        have h2 : ((c :: r) ++ (l.reverse.takeWhile pyWS).reverse).dropWhile pyWS
            = (r ++ (l.reverse.takeWhile pyWS).reverse).dropWhile pyWS := by
          simp [List.dropWhile_cons, hcc']
        rw [h2] at h1
        have hlen := congrArg List.length h1
        have hle : ((r ++ (l.reverse.takeWhile pyWS).reverse).dropWhile pyWS).length
            ≤ (r ++ (l.reverse.takeWhile pyWS).reverse).length :=
          length_dropWhile_le pyWS _
        simp at hlen hle
        omega
      exact dropWhile_of_head_false hc

theorem pyStripList_idem (l : List Char) :
    pyStripList (pyStripList l) = pyStripList l := by
  unfold pyStripList
  have h1 : (l.dropWhile pyWS).dropWhile pyWS = l.dropWhile pyWS :=
    dropWhile_dropWhile pyWS l
  have h2 := dropWhile_back_of_front h1
  rw [h2]
  rw [List.reverse_reverse]
  rw [dropWhile_dropWhile]

theorem pyStrip_idem (s : String) : pyStrip (pyStrip s) = pyStrip s :=
  String.ext (pyStripList_idem s.data)

/-! ## String key lemmas -/

theorem str_append_right_cancel {a b c : String} (h : a ++ c = b ++ c) : a = b := by
  have hd := congrArg String.data h
  rw [String.data_append, String.data_append] at hd
  exact String.ext (List.append_cancel_right hd)

theorem str_append_left_cancel {a b c : String} (h : c ++ a = c ++ b) : a = b := by
  have hd := congrArg String.data h
  rw [String.data_append, String.data_append] at hd
  exact String.ext (List.append_cancel_left hd)

theorem strLast_append (a sa : String) (h : sa.data ≠ []) :
    (a ++ sa).data.getLast? = sa.data.getLast? := by
  rw [String.data_append, List.getLast?_append]
  cases hc : sa.data with
  | nil => exact absurd hc h
  | cons c r => simp [List.getLast?_cons]

theorem ne_of_append_last {a sa t : String} (hsa : sa.data ≠ [])
    (h : sa.data.getLast? ≠ t.data.getLast?) : a ++ sa ≠ t := by
  intro he
  apply h
  rw [← strLast_append a sa hsa, he]

theorem ne_of_append_last₂ {a b sa sb : String} (hsa : sa.data ≠ [])
    (hsb : sb.data ≠ []) (h : sa.data.getLast? ≠ sb.data.getLast?) :
    a ++ sa ≠ b ++ sb := by
  apply ne_of_append_last hsa
  rw [strLast_append b sb hsb]
  exact h

/-! ## Dict lemmas -/

theorem lookup_cons (a k : String) (v : JVal) (es : Rec) :
    List.lookup a ((k, v) :: es) = if a = k then some v else List.lookup a es := by
  rcases hbeq : a == k with _ | _
  · have hne : ¬(a = k) := fun he => by simp [he] at hbeq
    simp [List.lookup, hbeq, hne]
  · have he : a = k := eq_of_beq hbeq
    simp [List.lookup, hbeq, he]

theorem lookup_append_rec (a : String) (d e : Rec) :
    List.lookup a (d ++ e) = (List.lookup a d).or (List.lookup a e) := by
  induction d with
  | nil => simp [List.lookup]
  | cons p tl ih =>
      rcases p with ⟨k, v⟩
      by_cases h : a = k
      · simp [lookup_cons, h]
      · simp only [List.cons_append, lookup_cons, h, if_false, ih]

theorem lookup_replace (d : Rec) (k K : String) (v : JVal) :
    List.lookup K (d.map (fun p => if p.1 = k then (k, v) else p))
      = if K = k then (List.lookup k d).map (fun _ => v) else List.lookup K d := by
  induction d with
  | nil => by_cases h : K = k <;> simp [List.lookup, h]
  | cons p tl ih =>
      rcases p with ⟨a, b⟩
      by_cases ha : a = k
      · subst ha
        by_cases hK : K = a
        · subst hK
          simp [lookup_cons, ih]
        · simp [lookup_cons, hK, ih]
      · by_cases hK : K = k
        · subst hK
          have hne : ¬(K = a) := fun he => ha he.symm
          simp [lookup_cons, ha, hne, ih]
        · by_cases hKa : K = a
          · subst hKa
            simp [lookup_cons, ha, hK, ih]
          · simp [lookup_cons, ha, hK, hKa, ih]

theorem lookup_dset_self (d : Rec) (k : String) (v : JVal) :
    List.lookup k (dset d k v) = some v := by
  by_cases hs : (List.lookup k d).isSome
  · rcases Option.isSome_iff_exists.mp hs with ⟨w, hw⟩
    rw [dset, if_pos hs, lookup_replace]
    simp [hw]
  · rw [dset, if_neg hs, lookup_append_rec, Option.not_isSome_iff_eq_none.mp hs]
    simp [lookup_cons]

theorem lookup_dset_ne (d : Rec) {k K : String} (v : JVal) (h : K ≠ k) :
    List.lookup K (dset d k v) = List.lookup K d := by
  by_cases hs : (List.lookup k d).isSome
  · rw [dset, if_pos hs, lookup_replace, if_neg h]
  · rw [dset, if_neg hs, lookup_append_rec]
    have hnone : List.lookup K [(k, v)] = none := by simp [lookup_cons, h]
    rw [hnone, Option.or_none]

theorem lookup_dset_isSome (d : Rec) (k K : String) (v : JVal)
    (h : (List.lookup K d).isSome = true) :
    (List.lookup K (dset d k v)).isSome = true := by
  by_cases he : K = k
  · subst he
    rw [lookup_dset_self]
    rfl
  · rw [lookup_dset_ne d v he]
    exact h

/-! ## Lemmas about the numeric-field loop -/

theorem numeric_specs_shape (fcast : PyCast) (s : String × String × PyCast)
    (hs : s ∈ numeric_specs fcast) :
    s.1 ∈ numericCols ∧ s.2.1 ∈ numericOuts := by
  simp only [numeric_specs, List.mem_cons, List.not_mem_nil, or_false] at hs
  rcases hs with rfl | rfl | rfl | rfl | rfl | rfl | rfl | rfl | rfl | rfl | rfl <;>
    exact ⟨by simp [numericCols], by simp [numericOuts]⟩

theorem addNumeric_preserve (row : Row) (K : String) :
    ∀ specs acc,
      (∀ s ∈ specs, rmem row s.1 = true →
        (s.2.1 ++ "_raw" ≠ K ∧ s.2.1 ++ "_v" ≠ K ∧ s.2.1 ++ "_is_trace" ≠ K)) →
      List.lookup K (addNumeric row specs acc) = List.lookup K acc := by
  intro specs
  induction specs with
  | nil => intro acc _; rfl
  | cons s rest ih =>
      rcases s with ⟨col, outname, cast⟩
      intro acc h
      show List.lookup K (addNumeric row rest _) = _
      rw [ih _ (fun t ht hmem => h t (List.mem_cons_of_mem _ ht) hmem)]
      by_cases hm : rmem row col
      · rcases h (col, outname, cast) (List.mem_cons_self _ _) hm with ⟨h1, h2, h3⟩
        rw [if_pos hm]
        rw [lookup_dset_ne _ _ (fun he => h3 he.symm),
            lookup_dset_ne _ _ (fun he => h2 he.symm),
            lookup_dset_ne _ _ (fun he => h1 he.symm)]
      · rw [if_neg hm]

theorem addNumeric_isSome (row : Row) (K : String) :
    ∀ specs acc, (List.lookup K acc).isSome = true →
      (List.lookup K (addNumeric row specs acc)).isSome = true := by
  intro specs
  induction specs with
  | nil => intro acc h; exact h
  | cons s rest ih =>
      rcases s with ⟨col, outname, cast⟩
      intro acc h
      apply ih
      by_cases hm : rmem row col
      · rw [if_pos hm]
        exact lookup_dset_isSome _ _ _ _
          (lookup_dset_isSome _ _ _ _ (lookup_dset_isSome _ _ _ _ h))
      · rw [if_neg hm]
        exact h

theorem addNumeric_stable (row : Row) (K : String) (V : JVal) :
    ∀ specs acc, List.lookup K acc = some V →
      (∀ s ∈ specs, rmem row s.1 = true →
        ((s.2.1 ++ "_raw" = K → jopt (rget row s.1) = V) ∧
          s.2.1 ++ "_v" ≠ K ∧ s.2.1 ++ "_is_trace" ≠ K)) →
      List.lookup K (addNumeric row specs acc) = some V := by
  intro specs
  induction specs with
  | nil => intro acc h _; exact h
  | cons s rest ih =>
      rcases s with ⟨col, outname, cast⟩
      intro acc h hcond
      apply ih
      · by_cases hm : rmem row col
        · rcases hcond (col, outname, cast) (List.mem_cons_self _ _) hm with
            ⟨h1, h2, h3⟩
          rw [if_pos hm]
          rw [lookup_dset_ne _ _ (fun he => h3 he.symm),
              lookup_dset_ne _ _ (fun he => h2 he.symm)]
          by_cases hr : outname ++ "_raw" = K
          · rw [← hr, lookup_dset_self]
            rw [h1 hr]
          · rw [lookup_dset_ne _ _ (fun he => hr he.symm)]
            exact h
        · rw [if_neg hm]
          exact h
      · exact fun t ht hmem => hcond t (List.mem_cons_of_mem _ ht) hmem

theorem addNumeric_sets_raw (row : Row) (col outname : String) (cast : PyCast) :
    ∀ specs acc, (col, outname, cast) ∈ specs → rmem row col = true →
      (∀ s ∈ specs, s.2.1 = outname → s.1 = col) →
      List.lookup (outname ++ "_raw") (addNumeric row specs acc)
        = some (jopt (rget row col)) := by
  intro specs
  induction specs with
  | nil => intro acc hmem _ _; exact absurd hmem (List.not_mem_nil _)
  | cons s rest ih =>
      rcases s with ⟨c0, o0, k0⟩
      intro acc hmem hrow hout
      rcases List.mem_cons.mp hmem with heq | htl
      · injection heq with h1 h2
        injection h2 with h2a h2b
        subst h1
        subst h2a
        subst h2b
        show List.lookup _ (addNumeric row rest _) = _
        apply addNumeric_stable
        · rw [if_pos hrow]
          rw [lookup_dset_ne _ _
                (ne_of_append_last₂ (by decide) (by decide) (by decide)),
              lookup_dset_ne _ _
                (ne_of_append_last₂ (by decide) (by decide) (by decide)),
              lookup_dset_self]
        · intro t ht hmemt
          refine ⟨fun hk => ?_, ?_, ?_⟩
          · have hto : t.2.1 = outname := str_append_right_cancel hk
            have hcol : t.1 = col := hout t (List.mem_cons_of_mem _ ht) hto
            rw [hcol]
          · exact ne_of_append_last₂ (by decide) (by decide) (by decide)
          · exact ne_of_append_last₂ (by decide) (by decide) (by decide)
      · show List.lookup _ (addNumeric row rest _) = _
        exact ih _ htl hrow (fun t ht => hout t (List.mem_cons_of_mem _ ht))

/-! ## Lemmas about the remaining-column pass -/

theorem addRemaining_stable (row : Row) (K : String) (V : JVal) :
    ∀ ks acc, List.lookup K acc = some V →
      (∀ k ∈ ks, k ++ "_raw" = K → jopt (rget row k) = V) →
      List.lookup K (addRemaining row ks acc) = some V := by
  intro ks
  induction ks with
  | nil => intro acc h _; exact h
  | cons k rest ih =>
      intro acc h hcond
      apply ih
      · by_cases hs : (List.lookup k acc).isSome
        · rw [if_pos hs]
          exact h
        · rw [if_neg hs]
          by_cases hk : k ++ "_raw" = K
          · rw [← hk, lookup_dset_self, hcond k (List.mem_cons_self _ _) hk]
          · rw [lookup_dset_ne _ _ (fun he => hk he.symm)]
            exact h
      · exact fun t ht => hcond t (List.mem_cons_of_mem _ ht)

theorem addRemaining_none (row : Row) (K : String) :
    ∀ ks acc, List.lookup K acc = none → (∀ k ∈ ks, k ++ "_raw" ≠ K) →
      List.lookup K (addRemaining row ks acc) = none := by
  intro ks
  induction ks with
  | nil => intro acc h _; exact h
  | cons k rest ih =>
      intro acc h hcond
      apply ih
      · by_cases hs : (List.lookup k acc).isSome
        · rw [if_pos hs]
          exact h
        · rw [if_neg hs]
          rw [lookup_dset_ne _ _
                (fun he => hcond k (List.mem_cons_self _ _) he.symm)]
          exact h
      · exact fun t ht => hcond t (List.mem_cons_of_mem _ ht)

theorem addRemaining_isSome (row : Row) (K : String) :
    ∀ ks acc, (List.lookup K acc).isSome = true →
      (List.lookup K (addRemaining row ks acc)).isSome = true := by
  intro ks
  induction ks with
  | nil => intro acc h; exact h
  | cons k rest ih =>
      intro acc h
      apply ih
      by_cases hs : (List.lookup k acc).isSome
      · rw [if_pos hs]
        exact h
      · rw [if_neg hs]
        exact lookup_dset_isSome _ _ _ _ h

theorem addRemaining_covers (row : Row) (key : String) :
    ∀ ks acc, key ∈ ks →
      (List.lookup key (addRemaining row ks acc)).isSome = true ∨
        (List.lookup (key ++ "_raw") (addRemaining row ks acc)).isSome = true := by
  intro ks
  induction ks with
  | nil => intro acc h; exact absurd h (List.not_mem_nil _)
  | cons k rest ih =>
      intro acc hmem
      rcases List.mem_cons.mp hmem with rfl | htl
      · by_cases hs : (List.lookup key acc).isSome
        · left
          exact addRemaining_isSome row key rest _
            (by rw [if_pos hs]; exact hs)
        · right
          show (List.lookup (key ++ "_raw") (addRemaining row rest _)).isSome = true
          apply addRemaining_isSome
          rw [if_neg hs, lookup_dset_self]
          rfl
      · exact ih _ htl

theorem addRemaining_sets (row : Row) (col : String) :
    ∀ ks acc, col ∈ ks → List.lookup col acc = none →
      (∀ k ∈ ks, k ++ "_raw" ≠ col) →
      List.lookup (col ++ "_raw") (addRemaining row ks acc)
        = some (jopt (rget row col)) := by
  intro ks
  induction ks with
  | nil => intro acc h _ _; exact absurd h (List.not_mem_nil _)
  | cons k rest ih =>
      intro acc hmem hnone hcond
      rcases List.mem_cons.mp hmem with rfl | htl
      · have hs : ¬((List.lookup col acc).isSome = true) := by
          rw [hnone]
          exact fun h => nomatch h
        show List.lookup _ (addRemaining row rest _) = _
        rw [if_neg hs]
        apply addRemaining_stable
        · exact lookup_dset_self _ _ _
        · intro t ht hk
          have hteq : t = col := str_append_right_cancel hk
          rw [hteq]
      · show List.lookup _ (addRemaining row rest _) = _
        by_cases hs : (List.lookup k acc).isSome
        · rw [if_pos hs]
          exact ih _ htl hnone (fun t ht => hcond t (List.mem_cons_of_mem _ ht))
        · rw [if_neg hs]
          apply ih _ htl _ (fun t ht => hcond t (List.mem_cons_of_mem _ ht))
          rw [lookup_dset_ne _ _
                (fun he => hcond k (List.mem_cons_self _ _) he.symm)]
          exact hnone

/-! ## Claims about the field normalizer -/

/-- C1.  A raw token that is Python `None`, or whose stripped form is one of
the sentinel strings, normalizes to the triple of the unchanged raw value, a
null value, and a false trace flag, whatever the target numeric type. -/
theorem c1_missing_normalizes_to_null (raw : Option String) (cast : PyCast)
    (h : raw = none ∨ ∃ s, raw = some s ∧
      (pyStrip s = "" ∨ pyStrip s = "M" ∨ pyStrip s = "NA" ∨ pyStrip s = "None")) :
    normalizeField raw cast = (raw, none, false) := by
  have hmiss : is_missing raw = true := by
    rcases h with rfl | ⟨s, rfl, hs⟩
    · rfl
    · rcases hs with hs | hs | hs | hs <;> simp [is_missing, hs]
  simp [normalizeField, parse_numeric_field, hmiss]

theorem c1_missing_normalizes_to_null_witness :
    pyStrip "  NA " = "NA" ∧
      normalizeField (some "  NA ") demoCast = (some "  NA ", none, false) :=
  ⟨by decide,
   c1_missing_normalizes_to_null (some "  NA ") demoCast
     (Or.inr ⟨"  NA ", rfl, Or.inr (Or.inr (Or.inl (by decide)))⟩)⟩

/-- C2.  A raw token that strips to `T` (hence is not a missing sentinel)
normalizes, for a target type whose cast of the integer zero succeeds with
value `z` (for `float` that is `0.0`), to the unchanged raw value, that zero
value, and a true trace flag. -/
theorem c2_trace_normalizes_to_zero (s : String) (cast : PyCast) (z : JVal)
    (htrim : pyStrip s = "T") (hzero : cast.onInt0 = some z) :
    normalizeField (some s) cast = (some s, some z, true) := by
  have hmiss : is_missing (some s) = false := by simp [is_missing, htrim]
  have htr : is_trace_token (some (pyStrip s)) = true := by
    rw [htrim]; rfl
  simp [normalizeField, parse_numeric_field, hmiss, htr, hzero]

theorem c2_trace_normalizes_to_zero_witness :
    pyStrip " T " = "T" ∧
      normalizeField (some " T ") demoCast = (some " T ", some (JVal.num 0), true) :=
  ⟨by decide, c2_trace_normalizes_to_zero " T " demoCast (JVal.num 0) (by decide) rfl⟩

/-- C3.  A raw token that is neither a missing sentinel nor a trace token and
whose cast fails normalizes to the unchanged raw value, a null value, and a
false trace flag; the embedding is total, so no exception escapes (a cast
failure is the `none` result of `onStr`, absorbed here). -/
theorem c3_cast_failure_normalizes_to_null (s : String) (cast : PyCast)
    (hmiss : is_missing (some s) = false) (htrace : pyStrip s ≠ "T")
    (hcast : cast.onStr (pyStrip s) = none) :
    normalizeField (some s) cast = (some s, none, false) := by
  have htr : is_trace_token (some (pyStrip s)) = false := by
    simp [is_trace_token, pyStrip_idem, htrace]
  simp [normalizeField, parse_numeric_field, hmiss, htr, hcast]

theorem c3_cast_failure_normalizes_to_null_witness :
    is_missing (some "abc") = false ∧ pyStrip "abc" ≠ "T" ∧
      normalizeField (some "abc") demoCast = (some "abc", none, false) :=
  ⟨by decide, by decide,
   c3_cast_failure_normalizes_to_null "abc" demoCast (by decide) (by decide) rfl⟩

/-! ## Record-stage lookup lemmas -/

theorem mem_colOutPairs (fcast : PyCast) (s : String × String × PyCast)
    (hs : s ∈ numeric_specs fcast) : (s.1, s.2.1) ∈ colOutPairs := by
  have hmap := List.mem_map_of_mem (fun t : String × String × PyCast => (t.1, t.2.1)) hs
  exact (show (numeric_specs fcast).map (fun t => (t.1, t.2.1)) = colOutPairs from rfl) ▸ hmap

theorem colOutPairs_mem_outs : ∀ p ∈ colOutPairs, p.2 ∈ numericOuts := by decide

theorem colOutPairs_inj :
    ∀ p ∈ colOutPairs, ∀ q ∈ colOutPairs, p.2 = q.2 → p.1 = q.1 := by decide

theorem colOutPairs_col_last : ∀ p ∈ colOutPairs,
    p.1.data.getLast? ≠ some 'w' ∧ p.1.data.getLast? ≠ some 'v' ∧
      p.1.data.getLast? ≠ some 'e' := by decide

theorem colOutPairs_col_not_fixed : ∀ p ∈ colOutPairs,
    p.1 ∉ (["station", "valid_raw", "valid", "cloud_groups_raw", "wxcodes_raw",
            "wxcodes_tokens", "metar_raw", "metar_parsed"] : List String) := by decide

theorem colOutPairs_out_not_fixed : ∀ p ∈ colOutPairs,
    p.2 ∉ (["cloud_groups", "wxcodes", "metar", "valid"] : List String) ∧
      p.1 ≠ p.2 := by decide

/-- A spec's output name determines its column, within the fixed table. -/
theorem numeric_specs_col_of_outname (fcast : PyCast) {col outname : String}
    {cast : PyCast} (hmem : (col, outname, cast) ∈ numeric_specs fcast) :
    ∀ s ∈ numeric_specs fcast, s.2.1 = outname → s.1 = col := by
  intro s hs h
  exact colOutPairs_inj _ (mem_colOutPairs fcast s hs) _
    (mem_colOutPairs fcast _ hmem) h

theorem lookup_recTimestamp_station (toDT : String → Option Nat) (row : Row) :
    List.lookup "station" (recTimestamp toDT row)
      = some (jopt (rget row "station")) := by
  unfold recTimestamp
  rw [lookup_dset_ne _ _ (by decide), lookup_dset_ne _ _ (by decide),
      lookup_dset_self]

theorem lookup_recTimestamp_validraw (toDT : String → Option Nat) (row : Row) :
    List.lookup "valid_raw" (recTimestamp toDT row)
      = some (jopt (rget row "valid")) := by
  unfold recTimestamp
  rw [lookup_dset_ne _ _ (by decide), lookup_dset_self]

theorem lookup_recTimestamp_valid (toDT : String → Option Nat) (row : Row) :
    List.lookup "valid" (recTimestamp toDT row)
      = some (validValue toDT (rget row "valid")) := by
  unfold recTimestamp
  rw [lookup_dset_self]

theorem lookup_recNumeric_ne (toDT : String → Option Nat) (fcast : PyCast)
    (row : Row) (K : String)
    (hK : ∀ o ∈ numericOuts,
      o ++ "_raw" ≠ K ∧ o ++ "_v" ≠ K ∧ o ++ "_is_trace" ≠ K) :
    List.lookup K (recNumeric toDT fcast row)
      = List.lookup K (recTimestamp toDT row) := by
  unfold recNumeric
  exact addNumeric_preserve row K _ _
    (fun s hs _ =>
      hK s.2.1 (colOutPairs_mem_outs _ (mem_colOutPairs fcast s hs)))

theorem lookup_recClouds_ne (toDT : String → Option Nat) (fcast : PyCast)
    (row : Row) (K : String) (h : K ≠ "cloud_groups_raw") :
    List.lookup K (recClouds toDT fcast row)
      = List.lookup K (recNumeric toDT fcast row) := by
  unfold recClouds
  cases cloud_groups_of row with
  | nil => rfl
  | cons g gs => exact lookup_dset_ne _ _ h

theorem lookup_recWxcodes_ne (toDT : String → Option Nat) (fcast : PyCast)
    (row : Row) (K : String) (h1 : K ≠ "wxcodes_raw") (h2 : K ≠ "wxcodes_tokens") :
    List.lookup K (recWxcodes toDT fcast row)
      = List.lookup K (recClouds toDT fcast row) := by
  unfold recWxcodes
  split
  · exact lookup_dset_ne _ _ h1
  · split
    · exact lookup_dset_ne _ _ h1
    · split
      · exact lookup_dset_ne _ _ h1
      · rw [lookup_dset_ne _ _ h2]
        exact lookup_dset_ne _ _ h1

theorem lookup_recWxcodes_raw (toDT : String → Option Nat) (fcast : PyCast)
    (row : Row) :
    List.lookup "wxcodes_raw" (recWxcodes toDT fcast row)
      = some (jopt (rget row "wxcodes")) := by
  unfold recWxcodes
  split
  · next heq => rw [lookup_dset_self, heq]; rfl
  · next s heq =>
      rw [heq]
      split
      · rw [lookup_dset_self]
        rfl
      · split
        · rw [lookup_dset_self]
          rfl
        · rw [lookup_dset_ne _ _ (by decide), lookup_dset_self]
          rfl

theorem lookup_recMetar_ne (toDT : String → Option Nat) (fcast : PyCast)
    (row : Row) (K : String) (h1 : K ≠ "metar_raw") (h2 : K ≠ "metar_parsed") :
    List.lookup K (recMetar toDT fcast row)
      = List.lookup K (recWxcodes toDT fcast row) := by
  unfold recMetar
  rw [lookup_dset_ne _ _ h2, lookup_dset_ne _ _ h1]

theorem lookup_recMetar_metar_raw (toDT : String → Option Nat) (fcast : PyCast)
    (row : Row) :
    List.lookup "metar_raw" (recMetar toDT fcast row)
      = some (jopt (rget row "metar")) := by
  unfold recMetar
  rw [lookup_dset_ne _ _ (by decide), lookup_dset_self]

theorem lookup_recMetar_metar_parsed (toDT : String → Option Nat) (fcast : PyCast)
    (row : Row) :
    List.lookup "metar_parsed" (recMetar toDT fcast row)
      = some (JVal.obj (parse_metar_text (rget row "metar"))) := by
  unfold recMetar
  rw [lookup_dset_self]

theorem lookup_recMetar_station (toDT : String → Option Nat) (fcast : PyCast)
    (row : Row) :
    List.lookup "station" (recMetar toDT fcast row)
      = some (jopt (rget row "station")) := by
  rw [lookup_recMetar_ne toDT fcast row _ (by decide) (by decide),
      lookup_recWxcodes_ne toDT fcast row _ (by decide) (by decide),
      lookup_recClouds_ne toDT fcast row _ (by decide),
      lookup_recNumeric_ne toDT fcast row _ (by decide),
      lookup_recTimestamp_station]

theorem lookup_recMetar_validraw (toDT : String → Option Nat) (fcast : PyCast)
    (row : Row) :
    List.lookup "valid_raw" (recMetar toDT fcast row)
      = some (jopt (rget row "valid")) := by
  rw [lookup_recMetar_ne toDT fcast row _ (by decide) (by decide),
      lookup_recWxcodes_ne toDT fcast row _ (by decide) (by decide),
      lookup_recClouds_ne toDT fcast row _ (by decide),
      lookup_recNumeric_ne toDT fcast row _ (by decide),
      lookup_recTimestamp_validraw]

theorem lookup_recMetar_valid (toDT : String → Option Nat) (fcast : PyCast)
    (row : Row) :
    List.lookup "valid" (recMetar toDT fcast row)
      = some (validValue toDT (rget row "valid")) := by
  rw [lookup_recMetar_ne toDT fcast row _ (by decide) (by decide),
      lookup_recWxcodes_ne toDT fcast row _ (by decide) (by decide),
      lookup_recClouds_ne toDT fcast row _ (by decide),
      lookup_recNumeric_ne toDT fcast row _ (by decide),
      lookup_recTimestamp_valid]

theorem lookup_recMetar_wxcodesraw (toDT : String → Option Nat) (fcast : PyCast)
    (row : Row) :
    List.lookup "wxcodes_raw" (recMetar toDT fcast row)
      = some (jopt (rget row "wxcodes")) := by
  rw [lookup_recMetar_ne toDT fcast row _ (by decide) (by decide),
      lookup_recWxcodes_raw]

theorem ne_of_not_mem_list {x y : String} {l : List String} (h : x ∉ l)
    (hy : y ∈ l) : x ≠ y :=
  fun he => h (he ▸ hy)

theorem raw_key_ne_of_ne {o m : String} (h : o ≠ m) :
    o ++ "_raw" ≠ m ++ "_raw" :=
  fun he => h (str_append_right_cancel he)

theorem validValue_null_of_missing (toDT : String → Option Nat)
    (rv : Option String)
    (hsent : ∀ s, is_missing (some s) = true → toDT s = none)
    (h : is_missing rv = true ∨ ∃ s, rv = some s ∧ pyStrip s = "M") :
    validValue toDT rv = JVal.null := by
  cases rv with
  | none => rfl
  | some s =>
      simp only [validValue]
      by_cases hse : s = ""
      · rw [if_pos hse]
      · rw [if_neg hse]
        by_cases hM : pyStrip s = "M"
        · rw [if_pos hM]
        · rw [if_neg hM]
          rcases h with hm | ⟨t, ht, hMt⟩
          · rw [hsent s hm]
          · injection ht with hts
            exact absurd (hts ▸ hMt) hM

theorem validValue_parse_branch (toDT : String → Option Nat) (s : String)
    (hse : s ≠ "") (hM : pyStrip s ≠ "M") :
    validValue toDT (some s)
      = (match toDT s with | some d => JVal.dt d | none => JVal.null) := by
  simp only [validValue]
  rw [if_neg hse, if_neg hM]

theorem ne_empty_of_not_missing {s : String} (h : is_missing (some s) = false) :
    s ≠ "" := by
  intro hse
  rw [hse] at h
  exact absurd h (by decide)

/-! ## Claims about the record assembler -/

/-- C4.  Every column name of the input's field-name list appears in the
assembled record under some key: either the name itself is already a key of the
record, or the pass-through step stored it under the name plus `_raw`. -/
theorem c4_every_column_appears (toDT : String → Option Nat) (fcast : PyCast)
    (row : Row) (fn : List String) (k : String) (hk : k ∈ fn) :
    (List.lookup k (row_to_record toDT fcast row fn)).isSome = true ∨
      (List.lookup (k ++ "_raw") (row_to_record toDT fcast row fn)).isSome = true := by
  unfold row_to_record
  exact addRemaining_covers row k fn _ hk

theorem c4_every_column_appears_witness :
    ("gust_drct" ∈ (["station", "gust_drct"] : List String)) ∧
      ((List.lookup "gust_drct" (row_to_record (fun _ => none) demoCast
          [("station", some "KSFO"), ("gust_drct", some "220")]
          ["station", "gust_drct"])).isSome = true ∨
        (List.lookup ("gust_drct" ++ "_raw") (row_to_record (fun _ => none)
          demoCast [("station", some "KSFO"), ("gust_drct", some "220")]
          ["station", "gust_drct"])).isSome = true) :=
  ⟨by decide, c4_every_column_appears _ demoCast _ _ "gust_drct" (by decide)⟩

/-- C8.  Under the assumption that the external generic date-time parser fails
on every missing-sentinel string (true of any date parser), the assembled
record stores the raw timestamp under `valid_raw` unchanged; the parsed
timestamp is null whenever the raw value is missing or strips to `M`; and for
any other value the parser's result is stored, with a parse failure degrading
to null instead of aborting the row. -/
theorem c8_timestamp_null_or_parsed (toDT : String → Option Nat) (fcast : PyCast)
    (row : Row) (fn : List String)
    (hsent : ∀ s, is_missing (some s) = true → toDT s = none) :
    List.lookup "valid_raw" (row_to_record toDT fcast row fn)
        = some (jopt (rget row "valid")) ∧
      ((is_missing (rget row "valid") = true ∨
          (∃ s, rget row "valid" = some s ∧ pyStrip s = "M")) →
        List.lookup "valid" (row_to_record toDT fcast row fn) = some JVal.null) ∧
      (∀ s, rget row "valid" = some s → is_missing (some s) = false →
        pyStrip s ≠ "M" →
        List.lookup "valid" (row_to_record toDT fcast row fn)
          = some (match toDT s with | some d => JVal.dt d | none => JVal.null)) := by
  have hv : List.lookup "valid" (row_to_record toDT fcast row fn)
      = some (validValue toDT (rget row "valid")) := by
    unfold row_to_record
    apply addRemaining_stable
    · exact lookup_recMetar_valid toDT fcast row
    · intro k hk he
      exact absurd he (ne_of_append_last (by decide) (by decide))
  refine ⟨?_, ?_, ?_⟩
  · unfold row_to_record
    apply addRemaining_stable
    · exact lookup_recMetar_validraw toDT fcast row
    · intro k hk he
      have hkv : k = "valid" := str_append_right_cancel he
      rw [hkv]
  · intro hmiss
    rw [hv, validValue_null_of_missing toDT _ hsent hmiss]
  · intro s hs hnm hnM
    rw [hv, hs, validValue_parse_branch toDT s (ne_empty_of_not_missing hnm) hnM]

theorem c8_timestamp_null_or_parsed_witness :
    List.lookup "valid_raw" (row_to_record (fun _ => none) demoCast
        [("valid", some "NA")] ["valid"]) = some (JVal.str "NA") ∧
      List.lookup "valid" (row_to_record (fun _ => none) demoCast
        [("valid", some "NA")] ["valid"]) = some JVal.null :=
  ⟨(c8_timestamp_null_or_parsed (fun _ => none) demoCast
      [("valid", some "NA")] ["valid"] (fun _ _ => rfl)).1,
   (c8_timestamp_null_or_parsed (fun _ => none) demoCast
      [("valid", some "NA")] ["valid"] (fun _ _ => rfl)).2.1
     (Or.inl (by decide))⟩

theorem absent_numeric_key_v_none (toDT : String → Option Nat) (fcast : PyCast)
    (row : Row) (fn : List String) {col outname : String} {cast : PyCast}
    (hmem : (col, outname, cast) ∈ numeric_specs fcast)
    (hnorow : rmem row col = false) :
    List.lookup (outname ++ "_v") (row_to_record toDT fcast row fn) = none := by
  unfold row_to_record
  apply addRemaining_none
  · rw [lookup_recMetar_ne toDT fcast row _
          (ne_of_append_last (by decide) (by decide))
          (ne_of_append_last (by decide) (by decide)),
        lookup_recWxcodes_ne toDT fcast row _
          (ne_of_append_last (by decide) (by decide))
          (ne_of_append_last (by decide) (by decide)),
        lookup_recClouds_ne toDT fcast row _
          (ne_of_append_last (by decide) (by decide))]
    have hnum : List.lookup (outname ++ "_v") (recNumeric toDT fcast row)
        = List.lookup (outname ++ "_v") (recTimestamp toDT row) := by
      unfold recNumeric
      apply addNumeric_preserve
      intro s hs hsmem
      by_cases ho : s.2.1 = outname
      · exfalso
        have hcol := numeric_specs_col_of_outname fcast hmem s hs ho
        rw [hcol, hnorow] at hsmem
        exact Bool.noConfusion hsmem
      · exact ⟨ne_of_append_last₂ (by decide) (by decide) (by decide),
          fun he => ho (str_append_right_cancel he),
          ne_of_append_last₂ (by decide) (by decide) (by decide)⟩
    rw [hnum]
    unfold recTimestamp
    rw [lookup_dset_ne _ _ (ne_of_append_last (by decide) (by decide)),
        lookup_dset_ne _ _ (ne_of_append_last (by decide) (by decide)),
        lookup_dset_ne _ _ (ne_of_append_last (by decide) (by decide))]
    rfl
  · intro k hk
    exact ne_of_append_last₂ (by decide) (by decide) (by decide)

theorem absent_numeric_key_trace_none (toDT : String → Option Nat)
    (fcast : PyCast) (row : Row) (fn : List String) {col outname : String}
    {cast : PyCast} (hmem : (col, outname, cast) ∈ numeric_specs fcast)
    (hnorow : rmem row col = false) :
    List.lookup (outname ++ "_is_trace") (row_to_record toDT fcast row fn)
      = none := by
  unfold row_to_record
  apply addRemaining_none
  · rw [lookup_recMetar_ne toDT fcast row _
          (ne_of_append_last (by decide) (by decide))
          (ne_of_append_last (by decide) (by decide)),
        lookup_recWxcodes_ne toDT fcast row _
          (ne_of_append_last (by decide) (by decide))
          (ne_of_append_last (by decide) (by decide)),
        lookup_recClouds_ne toDT fcast row _
          (ne_of_append_last (by decide) (by decide))]
    have hnum : List.lookup (outname ++ "_is_trace") (recNumeric toDT fcast row)
        = List.lookup (outname ++ "_is_trace") (recTimestamp toDT row) := by
      unfold recNumeric
      apply addNumeric_preserve
      intro s hs hsmem
      by_cases ho : s.2.1 = outname
      · exfalso
        have hcol := numeric_specs_col_of_outname fcast hmem s hs ho
        rw [hcol, hnorow] at hsmem
        exact Bool.noConfusion hsmem
      · exact ⟨ne_of_append_last₂ (by decide) (by decide) (by decide),
          ne_of_append_last₂ (by decide) (by decide) (by decide),
          fun he => ho (str_append_right_cancel he)⟩
    rw [hnum]
    unfold recTimestamp
    rw [lookup_dset_ne _ _ (ne_of_append_last (by decide) (by decide)),
        lookup_dset_ne _ _ (ne_of_append_last (by decide) (by decide)),
        lookup_dset_ne _ _ (ne_of_append_last (by decide) (by decide))]
    rfl
  · intro k hk
    exact ne_of_append_last₂ (by decide) (by decide) (by decide)

/-- C9.  The six fixed keys `station`, `valid_raw`, `valid`, `wxcodes_raw`,
`metar_raw`, `metar_parsed` are present in every assembled record; on a row
with none of the relevant columns the record consists of exactly those six
keys, holding null (or the empty mapping for `metar_parsed`); by contrast a
numeric-schema column absent from the row contributes neither its `_v` nor its
`_is_trace` output key. -/
theorem c9_fixed_keys_always_present :
    (∀ (toDT : String → Option Nat) (fcast : PyCast) (row : Row)
        (fn : List String),
      ∀ K ∈ (["station", "valid_raw", "valid", "wxcodes_raw", "metar_raw",
              "metar_parsed"] : List String),
        (List.lookup K (row_to_record toDT fcast row fn)).isSome = true) ∧
      (∀ (toDT : String → Option Nat) (fcast : PyCast),
        row_to_record toDT fcast [] [] =
          [("station", JVal.null), ("valid_raw", JVal.null),
           ("valid", JVal.null), ("wxcodes_raw", JVal.null),
           ("metar_raw", JVal.null), ("metar_parsed", JVal.obj [])]) ∧
      (∀ (toDT : String → Option Nat) (fcast : PyCast) (row : Row)
          (fn : List String) (col outname : String) (cast : PyCast),
        (col, outname, cast) ∈ numeric_specs fcast → rmem row col = false →
        List.lookup (outname ++ "_v") (row_to_record toDT fcast row fn) = none ∧
          List.lookup (outname ++ "_is_trace")
            (row_to_record toDT fcast row fn) = none) := by
  refine ⟨?_, ?_, ?_⟩
  · intro toDT fcast row fn K hK
    fin_cases hK
    · unfold row_to_record
      apply addRemaining_isSome
      rw [lookup_recMetar_station]
      rfl
    · unfold row_to_record
      apply addRemaining_isSome
      rw [lookup_recMetar_validraw]
      rfl
    · unfold row_to_record
      apply addRemaining_isSome
      rw [lookup_recMetar_valid]
      rfl
    · unfold row_to_record
      apply addRemaining_isSome
      rw [lookup_recMetar_wxcodesraw]
      rfl
    · unfold row_to_record
      apply addRemaining_isSome
      rw [lookup_recMetar_metar_raw]
      rfl
    · unfold row_to_record
      apply addRemaining_isSome
      rw [lookup_recMetar_metar_parsed]
      rfl
  · intro toDT fcast
    rfl
  · intro toDT fcast row fn col outname cast hmem hnorow
    exact ⟨absent_numeric_key_v_none toDT fcast row fn hmem hnorow,
      absent_numeric_key_trace_none toDT fcast row fn hmem hnorow⟩

theorem c9_fixed_keys_always_present_witness :
    (List.lookup "metar_parsed" (row_to_record (fun _ => none) demoCast
        [("metar", some "10SM")] ["metar"])).isSome = true ∧
      row_to_record (fun _ => none) demoCast [] [] =
        [("station", JVal.null), ("valid_raw", JVal.null), ("valid", JVal.null),
         ("wxcodes_raw", JVal.null), ("metar_raw", JVal.null),
         ("metar_parsed", JVal.obj [])] ∧
      List.lookup ("tmpf_F" ++ "_v") (row_to_record (fun _ => none) demoCast
        [] ["tmpf"]) = none :=
  ⟨c9_fixed_keys_always_present.1 (fun _ => none) demoCast
      [("metar", some "10SM")] ["metar"] "metar_parsed" (by decide),
   c9_fixed_keys_always_present.2.1 (fun _ => none) demoCast,
   (c9_fixed_keys_always_present.2.2 (fun _ => none) demoCast [] ["tmpf"]
      "tmpf" "tmpf_F" demoCast (List.mem_cons_self _ _) rfl).1⟩

/-- C10.  A numeric-schema column present both in the row and in the
field-name list (as every `DictReader` row column is), whose output name is
not itself a CSV column, yields its raw value twice: under the output name
plus `_raw` from the normalization loop, and under the column name plus `_raw`
from the pass-through step (which checks key names, not consumed columns);
the two keys are distinct and the two stored values are equal. -/
theorem c10_raw_value_stored_twice (toDT : String → Option Nat) (fcast : PyCast)
    (row : Row) (fn : List String) (col outname : String) (cast : PyCast)
    (hspec : (col, outname, cast) ∈ numeric_specs fcast)
    (hrow : rmem row col = true) (hfn : col ∈ fn) (hout : outname ∉ fn) :
    outname ++ "_raw" ≠ col ++ "_raw" ∧
      List.lookup (outname ++ "_raw") (row_to_record toDT fcast row fn)
        = some (jopt (rget row col)) ∧
      List.lookup (col ++ "_raw") (row_to_record toDT fcast row fn)
        = some (jopt (rget row col)) := by
  have hpair : ((col, outname) : String × String) ∈ colOutPairs :=
    mem_colOutPairs fcast _ hspec
  have hlast := colOutPairs_col_last _ hpair
  have hnotfixed := colOutPairs_col_not_fixed _ hpair
  have houtfixed := colOutPairs_out_not_fixed _ hpair
  refine ⟨?_, ?_, ?_⟩
  · exact raw_key_ne_of_ne (fun he => houtfixed.2 he.symm)
  · unfold row_to_record
    apply addRemaining_stable
    · rw [lookup_recMetar_ne toDT fcast row _
            (show outname ++ "_raw" ≠ "metar" ++ "_raw" from
              raw_key_ne_of_ne
                (ne_of_not_mem_list houtfixed.1 (by decide)))
            (ne_of_append_last (by decide) (by decide)),
          lookup_recWxcodes_ne toDT fcast row _
            (show outname ++ "_raw" ≠ "wxcodes" ++ "_raw" from
              raw_key_ne_of_ne
                (ne_of_not_mem_list houtfixed.1 (by decide)))
            (ne_of_append_last (by decide) (by decide)),
          lookup_recClouds_ne toDT fcast row _
            (show outname ++ "_raw" ≠ "cloud_groups" ++ "_raw" from
              raw_key_ne_of_ne
                (ne_of_not_mem_list houtfixed.1 (by decide)))]
      unfold recNumeric
      exact addNumeric_sets_raw row col outname cast _ _ hspec hrow
        (numeric_specs_col_of_outname fcast hspec)
    · intro k hk he
      exfalso
      have hko : k = outname := str_append_right_cancel he
      exact hout (hko ▸ hk)
  · unfold row_to_record
    apply addRemaining_sets row col fn _ hfn
    · rw [lookup_recMetar_ne toDT fcast row _
            (ne_of_not_mem_list hnotfixed (by decide))
            (ne_of_not_mem_list hnotfixed (by decide)),
          lookup_recWxcodes_ne toDT fcast row _
            (ne_of_not_mem_list hnotfixed (by decide))
            (ne_of_not_mem_list hnotfixed (by decide)),
          lookup_recClouds_ne toDT fcast row _
            (ne_of_not_mem_list hnotfixed (by decide))]
      have hnum : List.lookup col (recNumeric toDT fcast row)
          = List.lookup col (recTimestamp toDT row) := by
        unfold recNumeric
        apply addNumeric_preserve
        intro s hs hsmem
        exact ⟨ne_of_append_last (by decide) (Ne.symm hlast.1),
          ne_of_append_last (by decide) (Ne.symm hlast.2.1),
          ne_of_append_last (by decide) (Ne.symm hlast.2.2)⟩
      rw [hnum]
      unfold recTimestamp
      rw [lookup_dset_ne _ _ (ne_of_not_mem_list hnotfixed (by decide)),
          lookup_dset_ne _ _ (ne_of_not_mem_list hnotfixed (by decide)),
          lookup_dset_ne _ _ (ne_of_not_mem_list hnotfixed (by decide))]
      rfl
    · intro k hk
      exact ne_of_append_last (by decide) (Ne.symm hlast.1)

/-! ## Lemmas about the text extractor -/

theorem reSearch_nil {α : Type} (m : List Char → Option α) :
    reSearch m [] = m [] := rfl

theorem reSearch_cons {α : Type} (m : List Char → Option α) (c : Char)
    (rest : List Char) :
    reSearch m (c :: rest) =
      match m (c :: rest) with
      | some r => some r
      | none => reSearch m rest := rfl

theorem altMatchAt_shape {l : List Char} {a : String}
    (h : altMatchAt l = some a) :
    ∃ d1 d2 d3 d4 v, l = 'A' :: d1 :: d2 :: d3 :: d4 :: v ∧
      a.data = [d1, d2, d3, d4] ∧ d1.isDigit = true ∧ d2.isDigit = true ∧
      d3.isDigit = true ∧ d4.isDigit = true := by
  unfold altMatchAt at h
  split at h
  · next d1 d2 d3 d4 v =>
      split at h
      · next hd =>
          injection h with h'
          subst h'
          simp only [Bool.and_eq_true] at hd
          obtain ⟨⟨⟨hd1, hd2⟩, hd3⟩, hd4⟩ := hd
          exact ⟨d1, d2, d3, d4, v, rfl, rfl, hd1, hd2, hd3, hd4⟩
      · exact absurd h (by simp)
  · exact absurd h (by simp)

theorem altMatchAt_of_digits {d1 d2 d3 d4 : Char} {v : List Char}
    (h1 : d1.isDigit = true) (h2 : d2.isDigit = true) (h3 : d3.isDigit = true)
    (h4 : d4.isDigit = true) :
    altMatchAt ('A' :: d1 :: d2 :: d3 :: d4 :: v)
      = some (String.mk [d1, d2, d3, d4]) := by
  simp [altMatchAt, h1, h2, h3, h4]

theorem searchAlt_isSome_iff (l : List Char) :
    (reSearch altMatchAt l).isSome = true ↔ hasA4 l := by
  induction l with
  | nil =>
      rw [reSearch_nil]
      constructor
      · intro h
        exact absurd h (by simp [altMatchAt])
      · rintro ⟨u, d1, d2, d3, d4, v, heq, -⟩
        exact absurd heq (by simp)
  | cons c rest ih =>
      rw [reSearch_cons]
      split
      · next a ha =>
          simp only [Option.isSome_some, true_iff]
          obtain ⟨d1, d2, d3, d4, v, hl, -, hd1, hd2, hd3, hd4⟩ :=
            altMatchAt_shape ha
          exact ⟨[], d1, d2, d3, d4, v, hl, hd1, hd2, hd3, hd4⟩
      · next ha =>
          rw [ih]
          constructor
          · rintro ⟨u, d1, d2, d3, d4, v, heq, hd1, hd2, hd3, hd4⟩
            exact ⟨c :: u, d1, d2, d3, d4, v, by rw [heq]; rfl,
              hd1, hd2, hd3, hd4⟩
          · rintro ⟨u, d1, d2, d3, d4, v, heq, hd1, hd2, hd3, hd4⟩
            cases u with
            | nil =>
                exfalso
                simp only [List.nil_append] at heq
                rw [heq, altMatchAt_of_digits hd1 hd2 hd3 hd4] at ha
                exact Option.noConfusion ha
            | cons x u2 =>
                injection heq with hcx hrest
                exact ⟨u2, d1, d2, d3, d4, v, hrest, hd1, hd2, hd3, hd4⟩

theorem searchAlt_shape {l : List Char} {a : String}
    (h : reSearch altMatchAt l = some a) :
    ∃ u v, l = u ++ 'A' :: a.data ++ v ∧ a.data.length = 4 ∧
      (∀ c ∈ a.data, c.isDigit = true) ∧
      ∀ (u2 : List Char) (d1 d2 d3 d4 : Char) (v2 : List Char),
        l = u2 ++ 'A' :: d1 :: d2 :: d3 :: d4 :: v2 →
        d1.isDigit = true → d2.isDigit = true → d3.isDigit = true →
        d4.isDigit = true → u.length ≤ u2.length := by
  induction l with
  | nil =>
      rw [reSearch_nil] at h
      exact absurd h (by simp [altMatchAt])
  | cons c rest ih =>
      rw [reSearch_cons] at h
      split at h
      · next a0 ha =>
          injection h with h'
          subst h'
          obtain ⟨d1, d2, d3, d4, v, hl, hdata, hd1, hd2, hd3, hd4⟩ :=
            altMatchAt_shape ha
          refine ⟨[], v, ?_, ?_, ?_, ?_⟩
          · rw [hl, hdata]
            rfl
          · rw [hdata]
            rfl
          · rw [hdata]
            intro x hx
            simp only [List.mem_cons, List.not_mem_nil, or_false] at hx
            rcases hx with rfl | rfl | rfl | rfl <;> assumption
          · intro u2 e1 e2 e3 e4 v2 _ _ _ _ _
            exact Nat.zero_le _
      · next ha =>
          obtain ⟨u, v, hrest, hlen, hdig, hmin⟩ := ih h
          refine ⟨c :: u, v, by rw [hrest]; rfl, hlen, hdig, ?_⟩
          intro u2 e1 e2 e3 e4 v2 hdec he1 he2 he3 he4
          cases u2 with
          | nil =>
              exfalso
              simp only [List.nil_append] at hdec
              rw [hdec, altMatchAt_of_digits he1 he2 he3 he4] at ha
              exact Option.noConfusion ha
          | cons c2 u3 =>
              injection hdec with hc2 hrest2
              have hle := hmin u3 e1 e2 e3 e4 v2 hrest2 he1 he2 he3 he4
              simp only [List.length_cons]
              omega

theorem lookup_nil_rec (K : String) : List.lookup K ([] : Rec) = none := rfl

theorem lookup_windPartOf (s : List Char) (K : String) (h1 : K ≠ "wind_dir")
    (h2 : K ≠ "wind_spd_kt") (h3 : K ≠ "wind_gust_kt") :
    List.lookup K (windPartOf s) = none := by
  unfold windPartOf
  split <;> simp [lookup_cons, lookup_nil_rec, h1, h2, h3]

theorem lookup_visPartOf (s : List Char) (K : String)
    (h : K ≠ "visibility_raw") : List.lookup K (visPartOf s) = none := by
  unfold visPartOf
  split <;> simp [lookup_cons, lookup_nil_rec, h]

theorem lookup_cloudsPartOf (s : List Char) (K : String) (h : K ≠ "clouds") :
    List.lookup K (cloudsPartOf s) = none := by
  unfold cloudsPartOf
  split <;> simp [lookup_cons, lookup_nil_rec, h]

theorem lookup_wxPartOf_ne (s : List Char) (K : String) (h : K ≠ "wx_codes") :
    List.lookup K (wxPartOf s) = none := by
  unfold wxPartOf
  split <;> simp [lookup_cons, lookup_nil_rec, h]

theorem parse_some_eq (t : String) :
    parse_metar_text (some t) =
      if t = "" then []
      else if is_missing (some t) = true then []
      else
        windPartOf (pyStripList t.data) ++ visPartOf (pyStripList t.data) ++
          altPartOf (pyStripList t.data) ++ cloudsPartOf (pyStripList t.data) ++
          wxPartOf (pyStripList t.data) := rfl

theorem lookup_altPartOf (s : List Char) :
    List.lookup "altimeter_A" (altPartOf s)
      = (reSearch altMatchAt s).map JVal.str := by
  unfold altPartOf
  split
  · next a heq =>
      rw [heq]
      simp [lookup_cons]
  · next heq =>
      rw [heq]
      rfl

theorem parse_lookup_altimeter (t : String) (ht : t ≠ "")
    (hm : is_missing (some t) = false) :
    List.lookup "altimeter_A" (parse_metar_text (some t))
      = (reSearch altMatchAt (pyStripList t.data)).map JVal.str := by
  have hm' : ¬(is_missing (some t) = true) := by
    rw [hm]
    exact fun h => Bool.noConfusion h
  rw [parse_some_eq, if_neg ht, if_neg hm']
  rw [lookup_append_rec, lookup_append_rec, lookup_append_rec,
      lookup_append_rec,
      lookup_windPartOf _ _ (by decide) (by decide) (by decide),
      lookup_visPartOf _ _ (by decide),
      lookup_cloudsPartOf _ _ (by decide),
      lookup_wxPartOf_ne _ _ (by decide),
      lookup_altPartOf]
  cases reSearch altMatchAt (pyStripList t.data) <;> rfl

/-! ## Lemmas about the weather-code scan -/

theorem reOr_eq_some {α : Type} {a b : Option α} {r : α} (h : reOr a b = some r) :
    a = some r ∨ (a = none ∧ b = some r) := by
  cases a with
  | some x => exact Or.inl (by simpa [reOr] using h)
  | none => exact Or.inr ⟨rfl, by simpa [reOr] using h⟩

theorem wxPairOk_chars {a b : Char} (h : wxPairOk a b = true) :
    a ≠ ' ' ∧ b ≠ ' ' ∧ a ≠ '-' ∧ a ≠ '+' := by
  refine ⟨fun ha => ?_, fun hb => ?_, fun ha => ?_, fun ha => ?_⟩ <;>
    (subst_vars; simp [wxPairOk] at h)

theorem codeMatchAt_shape {l : List Char} {code : String} {rem : List Char}
    (h : codeMatchAt l = some (code, rem)) :
    ∃ x y, l = x :: y :: rem ∧ wxPairOk x y = true ∧
      code = String.mk [x, y] ∧ atWordBoundary rem = true := by
  unfold codeMatchAt at h
  split at h
  · next x y rest =>
      split at h
      · next hc =>
          injection h with h'
          injection h' with h1 h2
          subst h2
          simp only [Bool.and_eq_true] at hc
          exact ⟨x, y, rfl, hc.1, h1.symm, hc.2⟩
      · exact absurd h (by simp)
  · exact absurd h (by simp)

theorem wxMatchAt_shape {l : List Char} {code : String} {rem : List Char}
    (h : wxMatchAt l = some (code, rem)) :
    ∃ sgn x y, (sgn = ([] : List Char) ∨ sgn = ['-'] ∨ sgn = ['+']) ∧
      l = ' ' :: (sgn ++ x :: y :: rem) ∧ wxPairOk x y = true ∧
      code = String.mk [x, y] := by
  unfold wxMatchAt at h
  split at h
  · next r1 =>
      rcases reOr_eq_some h with h1 | ⟨-, h2⟩
      · split at h1
        · next c r2 =>
            split at h1
            · next hc =>
                obtain ⟨x, y, hr2, hxy, hcode, -⟩ := codeMatchAt_shape h1
                have hcsgn : c = '-' ∨ c = '+' := by simpa using hc
                refine ⟨[c], x, y, ?_, ?_, hxy, hcode⟩
                · rcases hcsgn with rfl | rfl
                  · exact Or.inr (Or.inl rfl)
                  · exact Or.inr (Or.inr rfl)
                · rw [hr2]
                  rfl
            · exact absurd h1 (by simp)
        · exact absurd h1 (by simp)
      · obtain ⟨x, y, hr1, hxy, hcode, -⟩ := codeMatchAt_shape h2
        exact ⟨[], x, y, Or.inl rfl, by rw [hr1]; rfl, hxy, hcode⟩
  · exact absurd h (by simp)

theorem wxMatchAt_at_suffix (sgn : List Char)
    (hsgn : sgn = [] ∨ sgn = ['-'] ∨ sgn = ['+']) {x y : Char}
    (hxy : wxPairOk x y = true) :
    wxMatchAt (' ' :: (sgn ++ [x, y, ' '])) = some (String.mk [x, y], [' ']) := by
  obtain ⟨hx, hy, hx1, hx2⟩ := wxPairOk_chars hxy
  have hb : atWordBoundary [' '] = true := by decide
  rcases hsgn with rfl | rfl | rfl
  · show wxMatchAt (' ' :: x :: y :: [' ']) = _
    simp [wxMatchAt, reOr, codeMatchAt, hxy, hb, hx1, hx2]
  · show wxMatchAt (' ' :: '-' :: x :: y :: [' ']) = _
    simp [wxMatchAt, reOr, codeMatchAt, hxy, hb]
  · show wxMatchAt (' ' :: '+' :: x :: y :: [' ']) = _
    simp [wxMatchAt, reOr, codeMatchAt, hxy, hb]

theorem wxAux_nil (f : Nat) : wxFindallAux f [] = [] := by
  cases f <;> rfl

theorem wxAux_space (f : Nat) : wxFindallAux f [' '] = [] := by
  cases f with
  | zero => rfl
  | succ g =>
      show wxFindallAux g [] = []
      exact wxAux_nil g

theorem wxAux_cons (f : Nat) (c : Char) (rest : List Char) :
    wxFindallAux (f + 1) (c :: rest) =
      match wxMatchAt (c :: rest) with
      | some (code, rem) => code :: wxFindallAux f rem
      | none => wxFindallAux f rest := rfl

theorem getLast?_cons_of_getLast? {a c : String} {xs : List String}
    (h : xs.getLast? = some c) : (a :: xs).getLast? = some c := by
  cases xs with
  | nil => exact absurd h (by simp)
  | cons b bs =>
      rw [List.getLast?_cons_cons]
      exact h

theorem wxFindall_last_code {x y : Char} (hxy : wxPairOk x y = true)
    (sgn : List Char) (hsgn : sgn = [] ∨ sgn = ['-'] ∨ sgn = ['+']) :
    ∀ fuel l u, l.length ≤ fuel → l = u ++ (' ' :: (sgn ++ [x, y, ' '])) →
      (wxFindallAux fuel l).getLast? = some (String.mk [x, y]) := by
  intro fuel
  induction fuel with
  | zero =>
      intro l u hlen heq
      exfalso
      subst heq
      simp [List.length_append] at hlen
  | succ f ih =>
      intro l u hlen heq
      cases u with
      | nil =>
          simp only [List.nil_append] at heq
          subst heq
          rw [wxAux_cons f ' ' (sgn ++ [x, y, ' ']),
              wxMatchAt_at_suffix sgn hsgn hxy]
          simp [wxAux_space]
      | cons c u2 =>
          subst heq
          rw [List.cons_append,
              wxAux_cons f c (u2 ++ (' ' :: (sgn ++ [x, y, ' '])))]
          split
          · next code rem hM =>
              obtain ⟨sgn2, x2, y2, hsgn2, hl, hxy2, hcode⟩ := wxMatchAt_shape hM
              injection hl with hc htail
              have htail2 : (sgn2 ++ [x2, y2]) ++ rem
                  = u2 ++ (' ' :: (sgn ++ [x, y, ' '])) := by
                rw [List.append_assoc]
                exact htail.symm
              have hmidne : ∀ ch ∈ sgn2 ++ [x2, y2], ch ≠ ' ' := by
                intro ch hch
                rcases List.mem_append.mp hch with hch | hch
                · rcases hsgn2 with rfl | rfl | rfl
                  · exact absurd hch (List.not_mem_nil _)
                  · simp only [List.mem_singleton] at hch
                    subst hch
                    decide
                  · simp only [List.mem_singleton] at hch
                    subst hch
                    decide
                · obtain ⟨hx2, hy2, -, -⟩ := wxPairOk_chars hxy2
                  simp only [List.mem_cons, List.not_mem_nil, or_false] at hch
                  rcases hch with rfl | rfl
                  · exact hx2
                  · exact hy2
              have hlen2 := congrArg List.length htail2
              simp only [List.length_append, List.length_cons,
                List.length_nil] at hlen2
              have hlen3 : (c :: (u2 ++ (' ' :: (sgn ++ [x, y, ' '])))).length
                  ≤ f + 1 := by
                rw [← List.cons_append]
                exact hlen
              simp only [List.length_cons, List.length_append,
                List.length_nil] at hlen3
              rcases List.append_eq_append_iff.mp htail2 with
                ⟨e, he1, he2⟩ | ⟨e, he1, he2⟩
              · apply getLast?_cons_of_getLast?
                apply ih rem e _ he2
                have hle := congrArg List.length he2
                simp only [List.length_append, List.length_cons,
                  List.length_nil] at hle
                omega
              · cases e with
                | nil =>
                    have hrem : rem = ' ' :: (sgn ++ [x, y, ' ']) := by
                      simpa using he2.symm
                    apply getLast?_cons_of_getLast?
                    apply ih rem [] _ (by simpa using hrem)
                    have hle := congrArg List.length hrem
                    simp only [List.length_append, List.length_cons,
                      List.length_nil] at hle
                    omega
                | cons h0 e2 =>
                    exfalso
                    injection he2 with hh0 hrest
                    have hmem : h0 ∈ sgn2 ++ [x2, y2] := by
                      rw [he1]
                      exact List.mem_append.mpr
                        (Or.inr (List.mem_cons_self _ _))
                    exact hmidne h0 hmem hh0.symm
          · next hM =>
              apply ih (u2 ++ (' ' :: (sgn ++ [x, y, ' ']))) u2 _ rfl
              have hlen3 : (c :: (u2 ++ (' ' :: (sgn ++ [x, y, ' '])))).length
                  ≤ f + 1 := by
                rw [← List.cons_append]
                exact hlen
              simp only [List.length_cons, List.length_append,
                List.length_nil] at hlen3
              simp only [List.length_append, List.length_cons, List.length_nil]
              omega

theorem wxVocab_chars {cd : String} (h : cd ∈ wxVocab) :
    ∃ x y, cd.data = [x, y] ∧ wxPairOk x y = true := by
  fin_cases h <;> exact ⟨_, _, rfl, by decide⟩

theorem wxPartOf_of_ne_nil {s : List Char} (h : wxFindall (s ++ [' ']) ≠ []) :
    wxPartOf s =
      [("wx_codes", JVal.list ((wxFindall (s ++ [' '])).map JVal.str))] := by
  unfold wxPartOf
  split
  · next heq => exact absurd heq h
  · rfl

theorem lookup_altPartOf_ne (s : List Char) (K : String)
    (h : K ≠ "altimeter_A") : List.lookup K (altPartOf s) = none := by
  unfold altPartOf
  split <;> simp [lookup_cons, lookup_nil_rec, h]

theorem parse_lookup_wx (t : String) (ht : t ≠ "")
    (hm : is_missing (some t) = false) :
    List.lookup "wx_codes" (parse_metar_text (some t))
      = List.lookup "wx_codes" (wxPartOf (pyStripList t.data)) := by
  have hm' : ¬(is_missing (some t) = true) := by
    rw [hm]
    exact fun h => Bool.noConfusion h
  rw [parse_some_eq, if_neg ht, if_neg hm']
  rw [lookup_append_rec, lookup_append_rec, lookup_append_rec,
      lookup_append_rec,
      lookup_windPartOf _ _ (by decide) (by decide) (by decide),
      lookup_visPartOf _ _ (by decide),
      lookup_altPartOf_ne _ _ (by decide),
      lookup_cloudsPartOf _ _ (by decide)]
  rfl

/-! ## Claims about the text extractor: altimeter and visibility -/

/-- C5 counterexample.  The text `A12345` is a single whitespace token that is
`A` followed by five digits, not exactly four, so under the claim no altimeter
entry should be emitted; the code emits one anyway (the pattern matches an
arbitrary inner substring and takes the first four digits). -/
theorem c5_counterexample_substring_match :
    List.lookup "altimeter_A" (parse_metar_text (some "A12345"))
        = some (JVal.str "1234") ∧
      wsTokens "A12345" = ["A12345"] ∧ isA4token "A12345" = false :=
  ⟨rfl, rfl, rfl⟩

/-- C5 (amended).  The extractor emits an altimeter entry exactly when the
stripped text contains, at any position and with no token boundary required,
the letter `A` immediately followed by four digits; the stored string is the
four digits of the first (leftmost) such occurrence: every other occurrence
of an `A` followed by four digits starts at the same position or later. -/
theorem c5_amended_altimeter_substring (t : String) (ht : t ≠ "")
    (hm : is_missing (some t) = false) :
    ((List.lookup "altimeter_A" (parse_metar_text (some t))).isSome = true ↔
        hasA4 (pyStripList t.data)) ∧
      ∀ a : String,
        List.lookup "altimeter_A" (parse_metar_text (some t))
            = some (JVal.str a) →
          ∃ u v, pyStripList t.data = u ++ 'A' :: a.data ++ v ∧
            a.data.length = 4 ∧ (∀ c ∈ a.data, c.isDigit = true) ∧
            ∀ (u2 : List Char) (d1 d2 d3 d4 : Char) (v2 : List Char),
              pyStripList t.data = u2 ++ 'A' :: d1 :: d2 :: d3 :: d4 :: v2 →
              d1.isDigit = true → d2.isDigit = true → d3.isDigit = true →
              d4.isDigit = true → u.length ≤ u2.length := by
  rw [parse_lookup_altimeter t ht hm]
  constructor
  · rw [← searchAlt_isSome_iff (pyStripList t.data)]
    cases reSearch altMatchAt (pyStripList t.data) <;> simp
  · intro a h
    cases hs : reSearch altMatchAt (pyStripList t.data) with
    | none =>
        rw [hs] at h
        exact absurd h (by simp)
    | some a0 =>
        rw [hs] at h
        simp only [Option.map_some'] at h
        injection h with h'
        injection h' with h''
        subst h''
        exact searchAlt_shape hs

theorem c5_amended_altimeter_substring_witness :
    ("Q A2994X" ≠ "") ∧ is_missing (some "Q A2994X") = false ∧
      (List.lookup "altimeter_A"
        (parse_metar_text (some "Q A2994X"))).isSome = true :=
  ⟨by decide, by decide,
   (c5_amended_altimeter_substring "Q A2994X" (by decide) (by decide)).1.mpr
     ⟨['Q', ' '], '2', '9', '9', '4', ['X'], by decide, by decide, by decide,
      by decide, by decide⟩⟩

/-- C6 counterexample.  The text `1/2` is exactly a half-mile fractional
visibility token without the `M` prefix; under the claim the extractor should
store it, but the pattern's half-mile alternative is `M1/2` with a mandatory
`M`, so nothing is stored (`\d{1,2}(?: ?/?\d)?SM` needs the `SM` suffix and
`M?1/4` needs the digit `4`). -/
theorem c6_counterexample_bare_half_mile :
    List.lookup "visibility_raw" (parse_metar_text (some "1/2")) = none ∧
      wsTokens "1/2" = ["1/2"] :=
  ⟨rfl, rfl⟩

/-- C6 (amended).  For the fractional visibility tokens the `M` ("less than")
prefix is optional for the quarter-mile token but mandatory for the half-mile
token: `1/4`, `M1/4` and `M1/2` are stored as matched, a bare `1/2` matches
nothing, and a half-mile expression without `M` is only stored with the `SM`
suffix through the statute-mile branch. -/
theorem c6_amended_vis_fraction_tokens :
    List.lookup "visibility_raw" (parse_metar_text (some "1/4"))
        = some (JVal.str "1/4") ∧
      List.lookup "visibility_raw" (parse_metar_text (some "M1/4"))
        = some (JVal.str "M1/4") ∧
      List.lookup "visibility_raw" (parse_metar_text (some "M1/2"))
        = some (JVal.str "M1/2") ∧
      List.lookup "visibility_raw" (parse_metar_text (some "1/2")) = none ∧
      List.lookup "visibility_raw" (parse_metar_text (some "1/2SM"))
        = some (JVal.str "1/2SM") :=
  ⟨rfl, rfl, rfl, rfl, rfl⟩

/-- C7.  A report whose stripped text ends exactly with a space-delimited
phenomenon code — optionally prefixed by an intensity sign, with no trailing
character — still has that code captured: the appended trailing space makes
the final match fire, the intensity prefix is dropped (only the code group is
collected), and the code is the last element of the `wx_codes` list, i.e. it
appears in order of appearance. -/
theorem c7_trailing_phenomenon_captured (t : String) (u : List Char)
    (sgn cd : String) (hsgn : sgn ∈ (["", "-", "+"] : List String))
    (hcd : cd ∈ wxVocab)
    (hsuffix : pyStripList t.data = u ++ (' ' :: (sgn.data ++ cd.data))) :
    ∃ ws : List String,
      List.lookup "wx_codes" (parse_metar_text (some t))
          = some (JVal.list (ws.map JVal.str)) ∧ ws.getLast? = some cd := by
  obtain ⟨x, y, hcdata, hxy⟩ := wxVocab_chars hcd
  have hsgn' : sgn.data = [] ∨ sgn.data = ['-'] ∨ sgn.data = ['+'] := by
    simp only [List.mem_cons, List.not_mem_nil, or_false] at hsgn
    rcases hsgn with rfl | rfl | rfl
    · exact Or.inl rfl
    · exact Or.inr (Or.inl rfl)
    · exact Or.inr (Or.inr rfl)
  have ht : t ≠ "" := by
    intro h0
    rw [h0] at hsuffix
    simp [pyStripList] at hsuffix
  have hsp : ' ' ∈ pyStripList t.data := by
    rw [hsuffix]
    exact List.mem_append.mpr (Or.inr (List.mem_cons_self _ _))
  have hm : is_missing (some t) = false := by
    cases hmv : is_missing (some t) with
    | false => rfl
    | true =>
        exfalso
        simp only [is_missing, List.contains_cons, Bool.or_eq_true,
          beq_iff_eq, List.contains_nil, Bool.or_false] at hmv
        rcases hmv with h4 | h4 | h4 | h4 <;>
          (first
            | (have hd := congrArg String.data h4.symm
               simp only [pyStrip] at hd
               rw [← hd] at hsp
               exact absurd hsp (by decide)))
  rw [parse_lookup_wx t ht hm]
  have hfind : (wxFindall ((pyStripList t.data) ++ [' '])).getLast?
      = some (String.mk [x, y]) := by
    unfold wxFindall
    apply wxFindall_last_code hxy sgn.data hsgn' _ _ u le_rfl
    rw [hsuffix, hcdata]
    simp [List.append_assoc]
  have hne : wxFindall ((pyStripList t.data) ++ [' ']) ≠ [] := by
    intro h0
    rw [h0] at hfind
    simp at hfind
  rw [wxPartOf_of_ne_nil hne]
  refine ⟨wxFindall ((pyStripList t.data) ++ [' ']), ?_, ?_⟩
  · simp [lookup_cons]
  · rw [hfind]
    rw [show String.mk [x, y] = cd from String.ext hcdata.symm]

theorem c7_trailing_phenomenon_captured_witness :
    ("-" ∈ (["", "-", "+"] : List String)) ∧ ("RA" ∈ wxVocab) ∧
      ∃ ws : List String,
        List.lookup "wx_codes" (parse_metar_text (some "KBOS 10SM -RA"))
            = some (JVal.list (ws.map JVal.str)) ∧ ws.getLast? = some "RA" :=
  ⟨by decide, by decide,
   c7_trailing_phenomenon_captured "KBOS 10SM -RA" "KBOS 10SM".data "-" "RA"
     (by decide) (by decide) (by decide)⟩

theorem c10_raw_value_stored_twice_witness :
    ("tmpf_F" ++ "_raw" : String) ≠ "tmpf" ++ "_raw" ∧
      List.lookup ("tmpf_F" ++ "_raw") (row_to_record (fun _ => none) demoCast
          [("tmpf", some "12.3")] ["tmpf"]) = some (JVal.str "12.3") ∧
      List.lookup ("tmpf" ++ "_raw") (row_to_record (fun _ => none) demoCast
          [("tmpf", some "12.3")] ["tmpf"]) = some (JVal.str "12.3") :=
  c10_raw_value_stored_twice (fun _ => none) demoCast [("tmpf", some "12.3")]
    ["tmpf"] "tmpf" "tmpf_F" demoCast (List.mem_cons_self _ _) rfl (by decide)
    (by decide)

end Metar
